import Mathlib

/-! # Folder fetching with offset pagination: the token codec and the page window

A shallow embedding of the Go package `folders` (files `folders.go`,
`folders_pagination.go`, `types.go`) and of the library routines it calls
(`strconv.Itoa`, `strconv.Atoi`, `base64.StdEncoding`, `uuid.UUID.String`,
the anchored regular expression of `IsValidUUID`).

Conventions of the embedding.

* A Go `string` is a Lean `String` (a Go string that is valid UTF-8); a Go
  `[]byte` is a `List Nat` whose elements are below 256. `[]byte(s)` is the
  UTF-8 encoding of `s`. The result of `string(decodedBytes)` is kept as bytes,
  which is what `strconv.Atoi` reads.
* A Go `int` is a 64-bit two's-complement integer: an `Int` in
  `[-2^63, 2^63)`, with `wrapInt` applied after each `+` and `-`.
* A call that returns `(value, error)` is an `Except`; a run-time panic is a
  separate constructor of `Failure`, never a value.
* `GetSampleData()` is a parameter `sample : List Folder` of every function
  that reads it.
-/

namespace Folders

deriving instance DecidableEq for Except

/-- The type of Go strings, under a second name for the signature of
`UUID.String`, where the name `String` is the method itself. -/
abbrev Text := String

/-! ## Machine integers -/

/-- The largest Go `int` on a 64-bit platform. -/
def maxInt : Int := 2 ^ 63 - 1

/-- The smallest Go `int` on a 64-bit platform. -/
def minInt : Int := -(2 ^ 63)

/-- Two's-complement wrap-around of a mathematical integer into the range of `int`. -/
def wrapInt (x : Int) : Int := (x + 2 ^ 63) % 2 ^ 64 - 2 ^ 63

/-- The bytes of a Go string: its UTF-8 encoding. -/
def bytesOfString (s : String) : List Nat :=
  (s.data.flatMap String.utf8EncodeChar).map UInt8.toNat

/-! ## strconv.Itoa and strconv.Atoi -/

/-- The decimal digits of `n`, most significant first, pushed in front of `acc`
(the loop of `formatBits`, which fills its buffer from the right). The buffer of
`formatBits` has 65 bytes, which is the fuel given by `Itoa`. -/
def formatBits : Nat → Nat → List Nat → List Nat
  | 0, _, acc => acc
  | fuel + 1, n, acc =>
    if n < 10 then (48 + n) :: acc
    else formatBits fuel (n / 10) ((48 + n % 10) :: acc)

/-- The bytes of `strconv.Itoa(index)`: the decimal numeral of `index`, with a
leading `-` for a negative number. -/
def Itoa (index : Int) : List Nat :=
  if index < 0 then 45 :: formatBits 65 index.natAbs []
  else formatBits 65 index.natAbs []

/-- Outcome of a `strconv` parser: the value returned, and whether the error is nil. -/
structure ParseResult where
  value : Int
  ok : Bool
deriving DecidableEq, Repr

/-- The loop of `strconv.ParseUint(s, 10, 64)` over the bytes that are left, with
`n` the number read so far: `none` is a syntax error (value 0), `some (v, false)`
is a range error (value `maxVal`), `some (v, true)` is success. -/
def parseUintLoop : List Nat → Nat → Option (Nat × Bool)
  | [], n => some (n, true)
  | c :: rest, n =>
    if 48 ≤ c ∧ c ≤ 57 then
      -- cutoff = maxUint64/10 + 1
      if n ≥ (2 ^ 64 - 1) / 10 + 1 then some (2 ^ 64 - 1, false)
      else if n * 10 + (c - 48) > 2 ^ 64 - 1 then some (2 ^ 64 - 1, false)
      else parseUintLoop rest (n * 10 + (c - 48))
    else none

/-- Model of `strconv.ParseInt(s, 10, 0)` on a 64-bit platform. -/
def ParseInt (s : List Nat) : ParseResult :=
  match s with
  | [] => ⟨0, false⟩
  | c :: rest =>
    let neg := c = 45
    let digits := if c = 43 ∨ c = 45 then rest else c :: rest
    match digits with
    | [] => ⟨0, false⟩
    | d :: ds =>
      match parseUintLoop (d :: ds) 0 with
      | none => ⟨0, false⟩
      | some (un, okU) =>
        -- cutoff = 1 << 63
        if ¬ neg ∧ un ≥ 2 ^ 63 then ⟨2 ^ 63 - 1, false⟩
        else if neg ∧ un > 2 ^ 63 then ⟨-(2 ^ 63), false⟩
        else ⟨if neg then -(un : Int) else (un : Int), okU⟩

/-- The fast path of `strconv.Atoi` for numerals shorter than 19 bytes: the
digits are accumulated without an overflow check. `none` is a syntax error. -/
def atoiFast : List Nat → Int → Option Int
  | [], n => some n
  | c :: rest, n =>
    if 48 ≤ c ∧ c ≤ 57 then atoiFast rest (n * 10 + ((c : Int) - 48)) else none

/-- Model of `strconv.Atoi` on a 64-bit platform. -/
def Atoi (s : List Nat) : ParseResult :=
  if 0 < s.length ∧ s.length < 19 then
    match s with
    | [] => ⟨0, false⟩
    | c :: rest =>
      let body := if c = 45 ∨ c = 43 then rest else c :: rest
      match body with
      | [] => ⟨0, false⟩
      | d :: ds =>
        match atoiFast (d :: ds) 0 with
        | none => ⟨0, false⟩
        | some n => ⟨if c = 45 then -n else n, true⟩
  else ParseInt s

/-! ## base64.StdEncoding -/

/-- The alphabet of `base64.StdEncoding`, as bytes. -/
def encodeStd : List Nat :=
  "ABCDEFGHIJKLMNOPQRSTUVWXYZabcdefghijklmnopqrstuvwxyz0123456789+/".data.map Char.toNat

/-- The byte `enc.encode[v]` of a 6-bit value. -/
def encodeByte (v : Nat) : Nat := encodeStd.getD v 65

/-- The table `enc.decodeMap`: the position of a byte in the alphabet, `0xff`
for a byte outside it. -/
def decodeMap (c : Nat) : Nat :=
  let i := encodeStd.indexOf c
  if i < 64 then i else 255

/-- The padding character `=` of `StdEncoding`. -/
def padChar : Nat := 61

/-- Model of `Encoding.Encode`: three bytes give four characters
(`val>>18&0x3F`, `val>>12&0x3F`, `val>>6&0x3F`, `val&0x3F` of the 24-bit group),
and a remainder of one or two bytes is padded with `=`. -/
def encodeBytes : List Nat → List Nat
  | [] => []
  | [a] =>
    let val := a * 2 ^ 16
    [encodeByte (val / 2 ^ 18 % 64), encodeByte (val / 2 ^ 12 % 64), padChar, padChar]
  | [a, b] =>
    let val := a * 2 ^ 16 + b * 2 ^ 8
    [encodeByte (val / 2 ^ 18 % 64), encodeByte (val / 2 ^ 12 % 64),
      encodeByte (val / 2 ^ 6 % 64), padChar]
  | a :: b :: c :: rest =>
    let val := a * 2 ^ 16 + b * 2 ^ 8 + c
    encodeByte (val / 2 ^ 18 % 64) :: encodeByte (val / 2 ^ 12 % 64) ::
      encodeByte (val / 2 ^ 6 % 64) :: encodeByte (val % 64) :: encodeBytes rest

/-- Model of `Encoding.EncodeToString`. -/
def EncodeToString (src : List Nat) : String :=
  String.mk ((encodeBytes src).map Char.ofNat)

/-- The loops of `decodeQuantum` that skip over newlines: the rest of the input
and the index reached. -/
def skipNewlines : List Nat → Nat → List Nat × Nat
  | [], si => ([], si)
  | c :: rest, si =>
    if c = 10 ∨ c = 13 then skipNewlines rest (si + 1) else (c :: rest, si)

/-- The end of `decodeQuantum`: the `dlen - 1` bytes of a quantum whose `dlen`
6-bit values are `dbuf` (missing values are 0). -/
def quantumBytes (dbuf : List Nat) : List Nat :=
  let val := dbuf.getD 0 0 * 2 ^ 18 + dbuf.getD 1 0 * 2 ^ 12 + dbuf.getD 2 0 * 2 ^ 6
    + dbuf.getD 3 0
  ([val / 2 ^ 16 % 256, val / 2 ^ 8 % 256, val % 256]).take (dbuf.length - 1)

/-- The part of `decodeQuantum` that follows a padding character: `dbuf` holds
the `j` values read before it, `rest` is the input from index `si`, which is the
index after that character. -/
def decodePadding (dbuf rest : List Nat) (si : Nat) : Except Nat (List Nat) :=
  if dbuf.length < 2 then
    -- incorrect padding
    .error (si - 1)
  else
    let afterPad : Except Nat (List Nat × Nat) :=
      if dbuf.length = 2 then
        -- "==" is expected, the first "=" is already consumed
        match skipNewlines rest si with
        | ([], si1) => .error si1
        | (c1 :: rest1, si1) =>
          if c1 ≠ padChar then .error (si1 - 1) else .ok (rest1, si1 + 1)
      else .ok (rest, si)
    match afterPad with
    | .error e => .error e
    | .ok (rest2, si2) =>
      match skipNewlines rest2 si2 with
      | ([], _) => .ok (quantumBytes dbuf)
      -- trailing garbage
      | (_ :: _, si3) => .error si3

/-- Model of `Encoding.Decode` for `StdEncoding` (padded, not strict): the
quanta are read by `decodeQuantum` one after the other. `src` is what is left of
the input from index `si`, `dbuf` the 6-bit values of the current quantum read so
far (`j = dbuf.length`). The error is the offset of a `CorruptInputError`. -/
def decodeLoop : List Nat → Nat → List Nat → Except Nat (List Nat)
  | [], si, dbuf =>
    -- len(src) == si
    if dbuf.length = 0 then .ok [] else .error (si - dbuf.length)
  | c :: rest, si, dbuf =>
    -- in := src[si]; si++
    if decodeMap c ≠ 255 then
      if dbuf.length = 3 then
        match decodeLoop rest (si + 1) [] with
        | .ok out => .ok (quantumBytes (dbuf ++ [decodeMap c]) ++ out)
        | .error e => .error e
      else decodeLoop rest (si + 1) (dbuf ++ [decodeMap c])
    else if c = 10 ∨ c = 13 then decodeLoop rest (si + 1) dbuf
    else if c ≠ padChar then .error (si + 1 - 1)
    else
      -- we have reached the end and there is padding
      decodePadding dbuf rest (si + 1)

/-- Model of `Encoding.DecodeString`, with the text of `CorruptInputError` as the error. -/
def DecodeString (s : String) : Except String (List Nat) :=
  match decodeLoop (bytesOfString s) 0 [] with
  | .ok out => .ok out
  | .error n => .error ("illegal base64 data at input byte " ++ toString n)

/-! ## The token codec (folders_pagination.go) -/

/-- Encode the indexes. -/
def EncodeToken (index : Int) : String :=
  let tokenStr := Itoa index
  EncodeToString tokenStr

/-- Decode the indexes: the error of `Atoi` is dropped and its value kept. -/
def DecodeToken (token : String) : Except String Int :=
  match DecodeString token with
  | .error err => .error ("invalid token format: " ++ err)
  | .ok decodedBytes => .ok (Atoi decodedBytes).value

/-! ## UUIDs and their validation (folders.go, folders_pagination.go) -/

/-- A `uuid.UUID` of `github.com/gofrs/uuid`: an array of 16 bytes. -/
structure UUID where
  bytes : List Nat
  size_eq : bytes.length = 16
  lt_256 : ∀ b ∈ bytes, b < 256
deriving DecidableEq

/-- The digits of `encoding/hex`. -/
def hextable : List Char := "0123456789abcdef".data

/-- Model of `hex.Encode`: two lowercase hexadecimal digits for each byte. -/
def hexEncode (src : List Nat) : List Char :=
  src.flatMap fun v => [hextable.getD (v / 16) '0', hextable.getD (v % 16) '0']

/-- Model of `UUID.String`: the canonical text `xxxxxxxx-xxxx-xxxx-xxxx-xxxxxxxxxxxx`. -/
def UUID.String (u : UUID) : Text :=
  String.mk (hexEncode (u.bytes.take 4) ++ '-' :: hexEncode ((u.bytes.drop 4).take 2)
    ++ '-' :: hexEncode ((u.bytes.drop 6).take 2) ++ '-' :: hexEncode ((u.bytes.drop 8).take 2)
    ++ '-' :: hexEncode (u.bytes.drop 10))

/-- The value `uuid.Nil`: sixteen zero bytes. -/
def UUID.Nil : UUID := ⟨List.replicate 16 0, by decide, by decide⟩

/-- One item of a regular expression of the shape used here: a character class,
given as a list of inclusive ranges, repeated exactly `count` times. -/
structure RegexItem where
  ranges : List (Char × Char)
  count : Nat

/-- Whether a character belongs to a class. -/
def inClass (ranges : List (Char × Char)) (c : Char) : Bool :=
  ranges.any fun r => decide (r.1 ≤ c) && decide (c ≤ r.2)

/-- Match `count` characters of a class at the front of the text; the rest of
the text on success. -/
def matchRepeat (ranges : List (Char × Char)) : Nat → List Char → Option (List Char)
  | 0, text => some text
  | _ + 1, [] => none
  | n + 1, c :: text => if inClass ranges c then matchRepeat ranges n text else none

/-- Match a sequence of items against the whole text (the expression is anchored
by `^` and `$`, and `$` without the multi-line flag matches only at the end of
the text). -/
def matchItems : List RegexItem → List Char → Bool
  | [], text => text.isEmpty
  | item :: items, text =>
    match matchRepeat item.ranges item.count text with
    | none => false
    | some rest => matchItems items rest

/-- The expression
`^[a-f0-9]{8}-[a-f0-9]{4}-4[0-9a-f]{3}-[89ab][0-9a-f]{3}-[a-f0-9]{12}$`. -/
def uuidRegexp : List RegexItem :=
  [⟨[('a', 'f'), ('0', '9')], 8⟩, ⟨[('-', '-')], 1⟩,
   ⟨[('a', 'f'), ('0', '9')], 4⟩, ⟨[('-', '-')], 1⟩,
   ⟨[('4', '4')], 1⟩, ⟨[('0', '9'), ('a', 'f')], 3⟩, ⟨[('-', '-')], 1⟩,
   ⟨[('8', '8'), ('9', '9'), ('a', 'a'), ('b', 'b')], 1⟩, ⟨[('0', '9'), ('a', 'f')], 3⟩,
   ⟨[('-', '-')], 1⟩,
   ⟨[('a', 'f'), ('0', '9')], 12⟩]

/-- Checks if the uuidv4 is valid or not (folders.go). -/
def IsValidUUID (uuid : String) : Bool :=
  matchItems uuidRegexp uuid.data

/-- Checks if the uuidv4 is valid or not (folders_pagination.go). -/
def IsValidUUIDv4 (uuid : String) : Bool :=
  matchItems uuidRegexp uuid.data

/-! ## The data model (types.go) -/

/-- Modelled from the spec: the record type `Folder`, whose declaration is not
among the sources. The spec gives it an `id`, an `orgId` and a `name`; the code
reads them as `Id`, `OrgId` and `Name`. -/
structure Folder where
  Id : UUID
  Name : String
  OrgId : UUID
deriving DecidableEq

/-- Modelled from the spec: the constant `dataSetSize`, whose declaration is not
among the sources; the spec puts the exclusive upper bound of a page limit at 1000. -/
def dataSetSize : Int := 1000

structure FetchFolderRequest where
  OrgID : UUID
deriving DecidableEq

structure FetchFolderResponse where
  Folders : List Folder
deriving DecidableEq

structure FetchFolderRequestWithPag where
  OrgID : UUID
  PageLimit : Int
  Token : String
deriving DecidableEq

structure FetchFolderResponseWithPag where
  Folders : List Folder
  NextToken : String
  PrevToken : String
deriving DecidableEq

/-- How a call fails: it returns a non-nil `error` (with the zero value of every
other result), or it does not return because of a run-time panic. -/
inductive Failure where
  /-- A non-nil error with this message. -/
  | error (msg : String)
  /-- The panic `slice bounds out of range` of `s[low:high]`. -/
  | sliceBoundsOutOfRange (low high : Int)
deriving DecidableEq

/-- The slice expression `s[low:high]`: it panics unless
`0 ≤ low ≤ high ≤ cap(s)`. The capacity is taken to be the length; at the only
slice expression of the package `high` never exceeds the length. -/
def sliceExpr {α : Type} (s : List α) (low high : Int) : Except Failure (List α) :=
  if 0 ≤ low ∧ low ≤ high ∧ high ≤ (s.length : Int) then
    .ok ((s.drop low.toNat).take (high.toNat - low.toNat))
  else .error (.sliceBoundsOutOfRange low high)

/-! ## Folder store access and the pagination engine -/

/-- The loop `for _, folder := range folders` shared by `FetchAllFoldersByOrgID`
and `FetchAllFoldersByOrgIDsInPag`: filter the folders based off the OrgID and
validate the uuid of each one kept, with the validator of the calling function. -/
def filterLoop (isValid : String → Bool) (orgID : UUID) :
    List Folder → List Folder → Except Failure (List Folder)
  | [], resFolder => .ok resFolder
  | folder :: folders, resFolder =>
    if folder.OrgId = orgID then
      if !isValid folder.Id.String then
        .error (.error ("folder with non-valid ID found for OrgID: " ++ orgID.String
          ++ " on folder named " ++ folder.Name))
      else filterLoop isValid orgID folders (resFolder ++ [folder])
    else filterLoop isValid orgID folders resFolder

/-- Filters the sample data by organisation id (folders.go). -/
def FetchAllFoldersByOrgID (sample : List Folder) (orgID : UUID) :
    Except Failure (List Folder) :=
  filterLoop IsValidUUID orgID sample []

/-- Retrieves a paginated list of folders for a specific organisation: the page,
the next token and the previous token (folders_pagination.go). -/
def FetchAllFoldersByOrgIDsInPag (sample : List Folder) (orgID : UUID) (PageLimit : Int)
    (Token : String) : Except Failure (List Folder × String × String) :=
  match filterLoop IsValidUUIDv4 orgID sample [] with
  | .error e => .error e
  | .ok resFolder =>
    -- Pagination logic
    let decoded : Except Failure Int :=
      if Token ≠ "" then
        match DecodeToken Token with
        | .error err => .error (.error ("invalid token: " ++ err))
        | .ok index => .ok index
      else .ok 0
    match decoded with
    | .error e => .error e
    | .ok startIndex =>
      if startIndex < 0 then
        .error (.error "invalid token: token must be non-negative")
      else
        let endIndex := wrapInt (startIndex + PageLimit)
        let endIndex := if endIndex > (resFolder.length : Int) then (resFolder.length : Int)
          else endIndex
        -- Slice the results for pagination
        match sliceExpr resFolder startIndex endIndex with
        | .error e => .error e
        | .ok paginatedFolders =>
          -- Determine the next and previous tokens
          let nextToken := if endIndex < (resFolder.length : Int) then EncodeToken endIndex else ""
          let prevToken :=
            if startIndex > 0 then
              let prevIndex := wrapInt (startIndex - PageLimit)
              let prevIndex := if prevIndex < 0 then 0 else prevIndex
              EncodeToken prevIndex
            else ""
          .ok (paginatedFolders, nextToken, prevToken)

/-! ## Request handlers -/

/-- The plain handler (folders.go). -/
def GetAllFolders (sample : List Folder) (req : FetchFolderRequest) :
    Except Failure FetchFolderResponse :=
  -- validate if orgId is valid
  if !IsValidUUID req.OrgID.String then
    .error (.error "invalid OrgID: must be valid UUID")
  else
    -- Fetch all folders by organisation ID
    match FetchAllFoldersByOrgID sample req.OrgID with
    | .error err => .error err
    | .ok folders =>
      -- If no folders found, return an error
      if folders.length = 0 then
        .error (.error ("no folders found for OrgID: " ++ req.OrgID.String))
      else .ok { Folders := folders }

/-- The paginated handler (folders_pagination.go). -/
def GetFoldersWithPag (sample : List Folder) (req : FetchFolderRequestWithPag) :
    Except Failure FetchFolderResponseWithPag :=
  -- validate if orgId is valid
  if !IsValidUUID req.OrgID.String then
    .error (.error "invalid OrgID: must be valid UUID")
  -- check if page limit is larger than the limit or negative
  else if req.PageLimit ≤ 0 ∨ req.PageLimit ≥ dataSetSize then
    .error (.error "invalid page limit: must be non-negative and below 1000 items")
  else
    -- Fetch all folders by organisation ID
    match FetchAllFoldersByOrgIDsInPag sample req.OrgID req.PageLimit req.Token with
    | .error err => .error err
    | .ok (folders, nextToken, prevToken) =>
      -- If no folders found, return an error
      if folders.length = 0 then
        .error (.error ("no folders found for OrgID: " ++ req.OrgID.String))
      else .ok { Folders := folders, NextToken := nextToken, PrevToken := prevToken }

/-! ## Notions used to state the theorems -/

/-- The number read by a decimal parser that has read `m` and still reads the
digits `s`. -/
def readDigits (m : Nat) (s : List Nat) : Nat :=
  s.foldl (fun m c => m * 10 + (c - 48)) m

/-- Every byte is an ASCII decimal digit. -/
def IsDigits (s : List Nat) : Prop := ∀ c ∈ s, 48 ≤ c ∧ c ≤ 57

/-- A byte that the base64 decoder cannot accept anywhere: it is not in the
alphabet, it is not a newline, and it is not the padding character. -/
def IsForeignByte (c : Nat) : Prop :=
  decodeMap c = 255 ∧ c ≠ 10 ∧ c ≠ 13 ∧ c ≠ padChar

/-- The folders of an organisation: the sub-list of the sample whose `OrgId` is
`orgID`, in the order of the sample. -/
def filtered (sample : List Folder) (orgID : UUID) : List Folder :=
  sample.filter fun f => decide (f.OrgId = orgID)

/-- The half-open window `F[lo : hi]` of a list. -/
def window {α : Type} (F : List α) (lo hi : Nat) : List α :=
  (F.drop lo).take (hi - lo)

/-- A bound on the length of a slice of pointers on a 64-bit platform: the runtime
allocates at most `2^48` bytes at once, eight for each pointer. -/
def maxSliceLen : Nat := 2 ^ 45

/-- A lowercase hexadecimal digit: `0-9` or `a-f`. -/
def isLowerHex (c : Char) : Bool :=
  (decide ('0' ≤ c) && decide (c ≤ '9')) || (decide ('a' ≤ c) && decide (c ≤ 'f'))

/-- What the textual pattern of a version-4 UUID asks of the character at
position `i` (counted from 0): `-` at 8, 13, 18 and 23, `4` at 14, one of `8`,
`9`, `a`, `b` at 19, a lowercase hexadecimal digit elsewhere. -/
def positionOK (i : Nat) (c : Char) : Bool :=
  if i = 8 ∨ i = 13 ∨ i = 18 ∨ i = 23 then c == '-'
  else if i = 14 then c == '4'
  else if i = 19 then c == '8' || c == '9' || c == 'a' || c == 'b'
  else isLowerHex c

/-- The textual pattern of a version-4 UUID: exactly 36 characters, each one as
its position asks. -/
def IsUUIDv4Text (s : String) : Prop :=
  s.length = 36 ∧ ∀ (i : Nat) (c : Char), s.data[i]? = some c → positionOK i c = true

/-- The character classes of a sequence of items, one for each character matched. -/
def classesOf (items : List RegexItem) : List (List (Char × Char)) :=
  items.flatMap fun item => List.replicate item.count item.ranges

/-- Match a text against a sequence of character classes, one character each. -/
def matchClasses : List (List (Char × Char)) → List Char → Bool
  | [], text => text.isEmpty
  | _ :: _, [] => false
  | cls :: classes, c :: text => inClass cls c && matchClasses classes text


/-- Whether a byte is an ASCII decimal digit. -/
def isDigitByte (c : Nat) : Bool := decide (48 ≤ c ∧ c ≤ 57)

/-- The bytes that follow the optional sign `+` or `-` of a text. -/
def stripSign (s : List Nat) : List Nat :=
  match s with
  | [] => []
  | c :: rest => if c = 43 ∨ c = 45 then rest else c :: rest

/-- The text of a decimal integer: an optional sign followed by one digit or more. -/
def IsNumeral (s : List Nat) : Prop := stripSign s ≠ [] ∧ IsDigits (stripSign s)

/-- The integer that a numeral denotes. -/
def numeralValue (s : List Nat) : Int :=
  if s.head? = some 45 then -((readDigits 0 (stripSign s) : Nat) : Int)
  else ((readDigits 0 (stripSign s) : Nat) : Int)

/-- The digits that follow the optional sign of a text, up to the first byte
that is not a digit. -/
def leadingDigits (s : List Nat) : List Nat := (stripSign s).takeWhile isDigitByte


/-- The loop of a client that reads the folders of an organisation forwards: it
calls the engine with a token, keeps the page, and goes on with the next token
until that token is empty. The result is the list of the pages, one for each
call, or the failure of a call; `none` means that the loop has not come to its
end within `fuel` calls. -/
def pagesFrom (sample : List Folder) (orgID : UUID) (PageLimit : Int) :
    Nat → String → Option (Except Failure (List (List Folder)))
  | 0, _ => none
  | fuel + 1, token =>
    match FetchAllFoldersByOrgIDsInPag sample orgID PageLimit token with
    | .error e => some (.error e)
    | .ok (page, nextToken, _) =>
      if nextToken = "" then some (.ok [page])
      else
        match pagesFrom sample orgID PageLimit fuel nextToken with
        | none => none
        | some (.error e) => some (.error e)
        | some (.ok pages) => some (.ok (page :: pages))


/-- A byte of the alphabet of standard base64 (RFC 4648, table 1): `A` to `Z`,
`a` to `z`, `0` to `9`, `+` and `/`. -/
def isAlphabetByte (c : Nat) : Bool :=
  decide (65 ≤ c ∧ c ≤ 90 ∨ 97 ≤ c ∧ c ≤ 122 ∨ 48 ≤ c ∧ c ≤ 57 ∨ c = 43 ∨ c = 47)

/-- A valid standard-base64 string, in the words of the specification read with
RFC 4648, section 4: the length is a multiple of four, and the string is made of
characters of the alphabet followed by no, one or two padding characters `=`.
The bits that the padding leaves unused are not examined, which is the reading
that makes the most strings valid. -/
def IsStdBase64 (s : List Nat) : Bool :=
  decide (s.length % 4 = 0) &&
    (s.dropWhile isAlphabetByte == [] || s.dropWhile isAlphabetByte == [61]
      || s.dropWhile isAlphabetByte == [61, 61])

/-- The bytes of an input without its carriage returns and line feeds. -/
def dropNewlines (s : List Nat) : List Nat :=
  s.filter fun c => c != 10 && c != 13

/-! ## Concrete data used to instantiate the theorems -/

/-- The organisation `c1556e17-b7c0-45a3-a6ae-9546248fb17c`. -/
def orgA : UUID :=
  ⟨[0xc1, 0x55, 0x6e, 0x17, 0xb7, 0xc0, 0x45, 0xa3, 0xa6, 0xae, 0x95, 0x46, 0x24, 0x8f, 0xb1, 0x7c],
    by decide, by decide⟩

/-- The organisation `f47ac10b-58cc-4372-a567-0e02b2c3d479`, which owns no folder below. -/
def orgB : UUID :=
  ⟨[0xf4, 0x7a, 0xc1, 0x0b, 0x58, 0xcc, 0x43, 0x72, 0xa5, 0x67, 0x0e, 0x02, 0xb2, 0xc3, 0xd4, 0x79],
    by decide, by decide⟩

/-- A folder of `orgA` whose valid version-4 identifier ends with the byte `i % 256`. -/
def folderA (i : Nat) : Folder :=
  { Id := ⟨[0, 0, 0, 0, 0, 0, 0x40, 0, 0x80, 0, 0, 0, 0, 0, 0, i % 256], by simp,
      by
        intro b hb
        simp only [List.mem_cons, List.mem_singleton, List.not_mem_nil, or_false] at hb
        have := Nat.mod_lt i (show 256 > 0 by decide)
        omega⟩
    Name := "folder"
    OrgId := orgA }

/-- A sample of `n` folders, all of `orgA`, numbered from 0. -/
def sampleA (n : Nat) : List Folder := (List.range n).map folderA

/-- A folder of `orgA` named `nil uuid v4` whose identifier is `uuid.Nil`, which is
not a version-4 UUID. -/
def badFolderA : Folder :=
  { Id := UUID.Nil, Name := "nil uuid v4", OrgId := orgA }

/-- A folder of the organisation `uuid.Nil` with a valid identifier. -/
def folderNil : Folder :=
  { Id := (folderA 7).Id, Name := "folder", OrgId := UUID.Nil }

/-- A folder of the organisation `uuid.Nil` whose identifier is `uuid.Nil`. -/
def badFolderNil : Folder :=
  { Id := UUID.Nil, Name := "nil uuid v4", OrgId := UUID.Nil }

/-! # Theorems -/

/-! ## Decimal numerals: `Atoi` inverts `Itoa` -/

theorem readDigits_cons (m c : Nat) (s : List Nat) :
    readDigits m (c :: s) = readDigits (m * 10 + (c - 48)) s := rfl

theorem le_readDigits (s : List Nat) : ∀ m, m ≤ readDigits m s := by
  induction s with
  | nil => intro m; exact Nat.le_refl m
  | cons c s ih =>
    intro m
    rw [readDigits_cons]
    have := ih (m * 10 + (c - 48))
    omega

theorem parseUintLoop_eq (s : List Nat) :
    ∀ m, IsDigits s → readDigits m s < 2 ^ 64 →
      parseUintLoop s m = some (readDigits m s, true) := by
  induction s with
  | nil => intro m _ _; rfl
  | cons c s ih =>
    intro m hd h
    rw [readDigits_cons] at h ⊢
    have hc := hd c (List.mem_cons_self c s)
    have hge := le_readDigits s (m * 10 + (c - 48))
    have hs : IsDigits s := fun x hx => hd x (List.mem_cons_of_mem c hx)
    have h1 : ¬ (m ≥ (2 ^ 64 - 1) / 10 + 1) := by
      norm_num
      norm_num at h
      omega
    have h2 : ¬ (m * 10 + (c - 48) > 2 ^ 64 - 1) := by
      norm_num
      norm_num at h
      omega
    simp only [parseUintLoop, hc, and_self, if_true, h1, h2, if_false]
    exact ih _ hs h

theorem atoiFast_eq (s : List Nat) :
    ∀ m : Nat, IsDigits s → atoiFast s (m : Int) = some ((readDigits m s : Nat) : Int) := by
  induction s with
  | nil => intro m _; rfl
  | cons c s ih =>
    intro m hd
    have hc := hd c (List.mem_cons_self c s)
    have hs : IsDigits s := fun x hx => hd x (List.mem_cons_of_mem c hx)
    have hcast : (m : Int) * 10 + ((c : Int) - 48) = ((m * 10 + (c - 48) : Nat) : Int) := by
      omega
    simp only [atoiFast, hc, and_self, if_true, readDigits_cons, hcast]
    exact ih _ hs

theorem formatBits_digits (fuel : Nat) :
    ∀ n acc, IsDigits acc → IsDigits (formatBits fuel n acc) := by
  induction fuel with
  | zero => intro n acc h; exact h
  | succ fuel ih =>
    intro n acc h
    unfold formatBits
    split
    · intro c hc
      rcases List.mem_cons.mp hc with rfl | hc
      · omega
      · exact h c hc
    · apply ih
      intro c hc
      rcases List.mem_cons.mp hc with rfl | hc
      · omega
      · exact h c hc

theorem formatBits_ne_nil (fuel : Nat) :
    ∀ n acc, (fuel ≠ 0 ∨ acc ≠ []) → formatBits fuel n acc ≠ [] := by
  induction fuel with
  | zero => intro n acc h; simpa [formatBits] using h
  | succ fuel ih =>
    intro n acc _
    unfold formatBits
    split
    · exact List.cons_ne_nil _ _
    · exact ih _ _ (Or.inr (List.cons_ne_nil _ _))

theorem formatBits_read (fuel : Nat) :
    ∀ n acc, n < 10 ^ fuel →
      ∃ k, ∀ m, readDigits m (formatBits fuel n acc) = readDigits (m * 10 ^ k + n) acc := by
  induction fuel with
  | zero =>
    intro n acc h
    refine ⟨0, fun m => ?_⟩
    have : n = 0 := by simpa using h
    simp [formatBits, this]
  | succ fuel ih =>
    intro n acc h
    unfold formatBits
    split
    · refine ⟨1, fun m => ?_⟩
      rw [readDigits_cons]
      congr 1
      omega
    · have hdiv : n / 10 < 10 ^ fuel := by
        rw [Nat.div_lt_iff_lt_mul (by decide)]
        rw [pow_succ] at h
        exact h
      obtain ⟨k, hk⟩ := ih (n / 10) ((48 + n % 10) :: acc) hdiv
      refine ⟨k + 1, fun m => ?_⟩
      rw [hk m, readDigits_cons]
      congr 1
      rw [pow_succ]
      have := Nat.div_add_mod n 10
      have e : 48 + n % 10 - 48 = n % 10 := by omega
      rw [e]
      generalize 10 ^ k = p at *
      ring_nf
      omega

theorem readDigits_formatBits (n : Nat) (h : n < 10 ^ 65) :
    readDigits 0 (formatBits 65 n []) = n := by
  obtain ⟨k, hk⟩ := formatBits_read 65 n [] h
  rw [hk 0]
  simp [readDigits]

/-- A numeral made of digits only, read by `Atoi`, is its value when that fits in an `int`. -/
theorem Atoi_digits (s : List Nat) (hne : s ≠ []) (hd : IsDigits s)
    (h : readDigits 0 s < 2 ^ 63) : Atoi s = ⟨(readDigits 0 s : Nat), true⟩ := by
  obtain ⟨c, rest, rfl⟩ := List.exists_cons_of_ne_nil hne
  have hc := hd c (List.mem_cons_self c rest)
  have hc43 : ¬ (c = 43) := by omega
  have hc45 : ¬ (c = 45) := by omega
  unfold Atoi
  split
  · have := atoiFast_eq (c :: rest) 0 hd
    simp only [Nat.cast_zero] at this
    simp only [hc43, hc45, or_self, if_false, this]
  · have h64 : readDigits 0 (c :: rest) < 2 ^ 64 := by omega
    have := parseUintLoop_eq (c :: rest) 0 hd h64
    have hlt : ¬ (readDigits 0 (c :: rest) ≥ 2 ^ 63) := by omega
    simp only [ParseInt, hc43, hc45, or_self, if_false, this, not_false_eq_true, true_and,
      false_and, hlt]

/-- A numeral made of `-` and digits, read by `Atoi`, is the opposite of the value
of the digits when that fits in an `int`. -/
theorem Atoi_minus_digits (s : List Nat) (hne : s ≠ []) (hd : IsDigits s)
    (h : readDigits 0 s ≤ 2 ^ 63) : Atoi (45 :: s) = ⟨-((readDigits 0 s : Nat) : Int), true⟩ := by
  obtain ⟨c, rest, rfl⟩ := List.exists_cons_of_ne_nil hne
  unfold Atoi
  split
  · have := atoiFast_eq (c :: rest) 0 hd
    simp only [Nat.cast_zero] at this
    simp only [true_or, if_true, this]
  · have h64 : readDigits 0 (c :: rest) < 2 ^ 64 := by omega
    have := parseUintLoop_eq (c :: rest) 0 hd h64
    have hlt : ¬ (readDigits 0 (c :: rest) > 2 ^ 63) := by omega
    simp only [ParseInt, or_true, if_true, this, not_true_eq_false, false_and, if_false,
      true_and, hlt]

theorem Atoi_Itoa (n : Int) (h1 : -(2 ^ 63) ≤ n) (h2 : n < 2 ^ 63) :
    Atoi (Itoa n) = ⟨n, true⟩ := by
  have hlt : n.natAbs < 10 ^ 65 := by
    have : n.natAbs ≤ 2 ^ 63 := by omega
    have : (2 : Nat) ^ 63 < 10 ^ 65 := by norm_num
    omega
  have hr := readDigits_formatBits n.natAbs hlt
  have hd := formatBits_digits 65 n.natAbs [] (fun _ h => absurd h (List.not_mem_nil _))
  have hne := formatBits_ne_nil 65 n.natAbs [] (Or.inl (by decide))
  unfold Itoa
  split
  · rw [Atoi_minus_digits _ hne hd (by rw [hr]; omega), hr]
    congr 1
    omega
  · rw [Atoi_digits _ hne hd (by rw [hr]; omega), hr]
    congr 1
    omega

/-! ## Base64: `DecodeString` inverts `EncodeToString` -/

theorem decodeMap_encodeByte_lt : ∀ v, v < 64 → decodeMap (encodeByte v) = v := by
  decide

theorem decodeMap_encodeByte (x : Nat) : decodeMap (encodeByte (x % 64)) = x % 64 :=
  decodeMap_encodeByte_lt _ (Nat.mod_lt _ (by decide))

theorem encodeByte_lt_128 (v : Nat) : encodeByte v < 128 := by
  by_cases h : v < 64
  · revert v
    decide
  · unfold encodeByte
    rw [List.getD_eq_default]
    · decide
    · have : encodeStd.length = 64 := by decide
      omega

theorem decodeLoop_push (c : Nat) (rest : List Nat) (si : Nat) (dbuf : List Nat)
    (hc : decodeMap c ≠ 255) (hl : dbuf.length ≠ 3) :
    decodeLoop (c :: rest) si dbuf = decodeLoop rest (si + 1) (dbuf ++ [decodeMap c]) := by
  simp only [decodeLoop, hc, hl, ne_eq, not_false_eq_true, if_true, if_false]

theorem decodeLoop_full (c : Nat) (rest : List Nat) (si : Nat) (dbuf : List Nat)
    (hc : decodeMap c ≠ 255) (hl : dbuf.length = 3) :
    decodeLoop (c :: rest) si dbuf =
      match decodeLoop rest (si + 1) [] with
      | .ok out => .ok (quantumBytes (dbuf ++ [decodeMap c]) ++ out)
      | .error e => .error e := by
  simp only [decodeLoop, hc, hl, ne_eq, not_false_eq_true, if_true]

theorem mod_64_ne_255 (x : Nat) : x % 64 ≠ 255 := by omega

theorem decodeLoop_encodeBytes (bs : List Nat) :
    (∀ b ∈ bs, b < 256) → ∀ si, decodeLoop (encodeBytes bs) si [] = .ok bs := by
  induction bs using encodeBytes.induct with
  | case1 => intro _ si; rfl
  | case2 a =>
    intro hb si
    have ha : a < 256 := hb a (List.mem_singleton_self a)
    have e : a * 2 ^ 16 % 64 = 0 % 64 := by omega
    simp only [encodeBytes]
    rw [decodeLoop_push _ _ _ _ (by rw [decodeMap_encodeByte]; exact mod_64_ne_255 _) (by simp),
      decodeLoop_push _ _ _ _ (by rw [decodeMap_encodeByte]; exact mod_64_ne_255 _) (by simp)]
    simp only [decodeMap_encodeByte, List.nil_append, List.cons_append]
    have hq : quantumBytes [a * 2 ^ 16 / 2 ^ 18 % 64, a * 2 ^ 16 / 2 ^ 12 % 64] = [a] := by
      simp only [quantumBytes, List.getD_cons_zero, List.getD_cons_succ, List.getD_nil,
        List.length_cons, List.length_nil, List.take_succ_cons, List.take_zero]
      congr 1
      omega
    have hpad : decodeMap 61 = 255 := by decide
    simp [decodeLoop, decodePadding, hpad, padChar, skipNewlines, ← hq]
  | case3 a b =>
    intro hb si
    have ha : a < 256 := hb a (by simp)
    have hb' : b < 256 := hb b (by simp)
    simp only [encodeBytes]
    rw [decodeLoop_push _ _ _ _ (by rw [decodeMap_encodeByte]; exact mod_64_ne_255 _) (by simp),
      decodeLoop_push _ _ _ _ (by rw [decodeMap_encodeByte]; exact mod_64_ne_255 _) (by simp),
      decodeLoop_push _ _ _ _ (by rw [decodeMap_encodeByte]; exact mod_64_ne_255 _) (by simp)]
    simp only [decodeMap_encodeByte, List.nil_append, List.cons_append]
    have hq : quantumBytes [(a * 2 ^ 16 + b * 2 ^ 8) / 2 ^ 18 % 64,
        (a * 2 ^ 16 + b * 2 ^ 8) / 2 ^ 12 % 64, (a * 2 ^ 16 + b * 2 ^ 8) / 2 ^ 6 % 64]
        = [a, b] := by
      simp only [quantumBytes, List.getD_cons_zero, List.getD_cons_succ, List.getD_nil,
        List.length_cons, List.length_nil, List.take_succ_cons, List.take_zero]
      congr 1
      · omega
      · congr 1
        omega
    have hpad : decodeMap 61 = 255 := by decide
    simp [decodeLoop, decodePadding, hpad, padChar, skipNewlines, ← hq]
  | case4 a b c rest ih =>
    intro hb si
    have ha : a < 256 := hb a (by simp)
    have hb' : b < 256 := hb b (by simp)
    have hc : c < 256 := hb c (by simp)
    have hrest : ∀ x ∈ rest, x < 256 := fun x hx => hb x (by simp [hx])
    simp only [encodeBytes]
    rw [decodeLoop_push _ _ _ _ (by rw [decodeMap_encodeByte]; exact mod_64_ne_255 _) (by simp),
      decodeLoop_push _ _ _ _ (by rw [decodeMap_encodeByte]; exact mod_64_ne_255 _) (by simp),
      decodeLoop_push _ _ _ _ (by rw [decodeMap_encodeByte]; exact mod_64_ne_255 _) (by simp),
      decodeLoop_full _ _ _ _ (by rw [decodeMap_encodeByte]; exact mod_64_ne_255 _) (by simp),
      ih hrest]
    simp only [decodeMap_encodeByte, List.nil_append, List.cons_append]
    have hq : quantumBytes [(a * 2 ^ 16 + b * 2 ^ 8 + c) / 2 ^ 18 % 64,
        (a * 2 ^ 16 + b * 2 ^ 8 + c) / 2 ^ 12 % 64, (a * 2 ^ 16 + b * 2 ^ 8 + c) / 2 ^ 6 % 64,
        (a * 2 ^ 16 + b * 2 ^ 8 + c) % 64] = [a, b, c] := by
      simp only [quantumBytes, List.getD_cons_zero, List.getD_cons_succ, List.getD_nil,
        List.length_cons, List.length_nil, List.take_succ_cons, List.take_zero]
      congr 1
      · omega
      · congr 1
        · omega
        · congr 1
          omega
    rw [hq]
    rfl

theorem encodeBytes_lt_128 (bs : List Nat) : ∀ c ∈ encodeBytes bs, c < 128 := by
  induction bs using encodeBytes.induct with
  | case1 => intro c hc; simp [encodeBytes] at hc
  | case2 a =>
    intro c hc
    simp only [encodeBytes, List.mem_cons, List.mem_singleton, List.not_mem_nil, or_false] at hc
    rcases hc with rfl | rfl | rfl | rfl <;> first | exact encodeByte_lt_128 _ | decide
  | case3 a b =>
    intro c hc
    simp only [encodeBytes, List.mem_cons, List.mem_singleton, List.not_mem_nil, or_false] at hc
    rcases hc with rfl | rfl | rfl | rfl <;> first | exact encodeByte_lt_128 _ | decide
  | case4 a b c rest ih =>
    intro x hx
    simp only [encodeBytes, List.mem_cons] at hx
    rcases hx with rfl | rfl | rfl | rfl | hx
    · exact encodeByte_lt_128 _
    · exact encodeByte_lt_128 _
    · exact encodeByte_lt_128 _
    · exact encodeByte_lt_128 _
    · exact ih x hx

theorem utf8_ascii : ∀ n, n < 128 →
    (String.utf8EncodeChar (Char.ofNat n)).map UInt8.toNat = [n] := by
  decide

theorem bytesOfString_mk_ascii (l : List Nat) (h : ∀ c ∈ l, c < 128) :
    bytesOfString (String.mk (l.map Char.ofNat)) = l := by
  induction l with
  | nil => rfl
  | cons c l ih =>
    have hc := utf8_ascii c (h c (List.mem_cons_self c l))
    have hl := ih (fun x hx => h x (List.mem_cons_of_mem c hx))
    simp only [bytesOfString, List.map_cons, List.flatMap_cons, List.map_append] at hl ⊢
    rw [hc, hl]
    rfl

theorem DecodeString_EncodeToString (bs : List Nat) (hb : ∀ b ∈ bs, b < 256) :
    DecodeString (EncodeToString bs) = .ok bs := by
  unfold DecodeString EncodeToString
  rw [bytesOfString_mk_ascii _ (encodeBytes_lt_128 bs), decodeLoop_encodeBytes bs hb 0]

/-! ## Base64: an input with a foreign byte is rejected -/

theorem skipNewlines_mem (c : Nat) (h10 : c ≠ 10) (h13 : c ≠ 13) :
    ∀ (l : List Nat) (si : Nat), c ∈ l → c ∈ (skipNewlines l si).1 := by
  intro l
  induction l with
  | nil => intro si h; exact absurd h (List.not_mem_nil c)
  | cons x l ih =>
    intro si h
    unfold skipNewlines
    split
    · next hx =>
      rcases List.mem_cons.mp h with rfl | h
      · omega
      · exact ih (si + 1) h
    · exact h

theorem decodePadding_foreign (c : Nat) (hf : IsForeignByte c) (dbuf rest : List Nat)
    (si : Nat) (hmem : c ∈ rest) : ∃ n, decodePadding dbuf rest si = .error n := by
  obtain ⟨_, h10, h13, hpad⟩ := hf
  have tail : ∀ (l : List Nat) (sj : Nat), c ∈ l →
      ∃ n, (match skipNewlines l sj with
        | ([], _) => (.ok (quantumBytes dbuf) : Except Nat (List Nat))
        | (_ :: _, si3) => .error si3) = .error n := by
    intro l sj hl
    have hm := skipNewlines_mem c h10 h13 l sj hl
    rcases hs : skipNewlines l sj with ⟨l3, si3⟩
    rw [hs] at hm
    cases l3 with
    | nil => exact absurd hm (List.not_mem_nil c)
    | cons y l3 => exact ⟨si3, rfl⟩
  unfold decodePadding
  by_cases h2 : dbuf.length < 2
  · exact ⟨si - 1, by simp only [h2, if_true]⟩
  · simp only [h2, if_false]
    by_cases he : dbuf.length = 2
    · simp only [he, if_true]
      have hm := skipNewlines_mem c h10 h13 rest si hmem
      rcases hs : skipNewlines rest si with ⟨l1, si1⟩
      rw [hs] at hm
      cases l1 with
      | nil => exact absurd hm (List.not_mem_nil c)
      | cons c1 rest1 =>
        by_cases hc1 : c1 = padChar
        · have hr : c ∈ rest1 := by
            rcases List.mem_cons.mp hm with h | h
            · exact absurd (h.trans hc1) hpad
            · exact h
          simp only [hc1, ne_eq, not_true_eq_false, if_false]
          exact tail rest1 (si1 + 1) hr
        · exact ⟨si1 - 1, by simp only [hc1, ne_eq, not_false_eq_true, if_true]⟩
    · simp only [he, if_false]
      exact tail rest si hmem

theorem decodeLoop_foreign (c : Nat) (hf : IsForeignByte c) :
    ∀ (src : List Nat) (si : Nat) (dbuf : List Nat), c ∈ src →
      ∃ n, decodeLoop src si dbuf = .error n := by
  intro src
  induction src with
  | nil => intro si dbuf h; exact absurd h (List.not_mem_nil c)
  | cons x rest ih =>
    intro si dbuf hmem
    by_cases hx : decodeMap x ≠ 255
    · have hr : c ∈ rest := by
        rcases List.mem_cons.mp hmem with h | h
        · rw [← h] at hx
          exact absurd hf.1 hx
        · exact h
      by_cases hl : dbuf.length = 3
      · obtain ⟨n, hn⟩ := ih (si + 1) [] hr
        exact ⟨n, by rw [decodeLoop_full x rest si dbuf hx hl, hn]⟩
      · obtain ⟨n, hn⟩ := ih (si + 1) (dbuf ++ [decodeMap x]) hr
        exact ⟨n, by rw [decodeLoop_push x rest si dbuf hx hl, hn]⟩
    · by_cases hnl : x = 10 ∨ x = 13
      · have hr : c ∈ rest := by
          rcases List.mem_cons.mp hmem with h | h
          · have := hf.2.1
            have := hf.2.2.1
            omega
          · exact h
        obtain ⟨n, hn⟩ := ih (si + 1) dbuf hr
        exact ⟨n, by simp only [decodeLoop, hx, if_false, hnl, if_true, hn]⟩
      · by_cases hp : x = padChar
        · have hr : c ∈ rest := by
            rcases List.mem_cons.mp hmem with h | h
            · exact absurd (h.trans hp) hf.2.2.2
            · exact h
          obtain ⟨n, hn⟩ := decodePadding_foreign c hf dbuf rest (si + 1) hr
          have hp' : ¬ x ≠ padChar := by simpa using hp
          exact ⟨n, by simp only [decodeLoop, hx, if_false, hnl, hp', hn]⟩
        · exact ⟨si + 1 - 1, by
            simp only [decodeLoop, hx, if_false, hnl, hp, ne_eq, not_false_eq_true, if_true]⟩

/-- A string with a byte outside the alphabet, other than a newline and the
padding character, is not decoded. -/
theorem DecodeString_foreign (s : String) (c : Nat) (hf : IsForeignByte c)
    (hmem : c ∈ bytesOfString s) : ∃ e, DecodeString s = .error e := by
  obtain ⟨n, hn⟩ := decodeLoop_foreign c hf (bytesOfString s) 0 [] hmem
  refine ⟨"illegal base64 data at input byte " ++ toString n, ?_⟩
  simp only [DecodeString, hn]

/-! ## Base64: the inputs that `DecodeString` accepts -/

set_option maxRecDepth 100000 in
theorem decodeMap_ne_255_iff (c : Nat) : decodeMap c ≠ 255 ↔ isAlphabetByte c = true := by
  by_cases h : c < 128
  · have key : ∀ c, c < 128 → (decodeMap c ≠ 255 ↔ isAlphabetByte c = true) := by decide
    exact key c h
  · have hall : ∀ x ∈ encodeStd, x < 128 := by decide
    have hnot : c ∉ encodeStd := fun hm => h (hall c hm)
    have hd : decodeMap c = 255 := by
      unfold decodeMap
      rw [List.indexOf_eq_length.mpr hnot]
      decide
    have ha : isAlphabetByte c = false := by
      unfold isAlphabetByte
      rw [decide_eq_false_iff_not]
      omega
    rw [hd, ha]
    simp

theorem dropNewlines_cons_newline (c : Nat) (l : List Nat) (h : c = 10 ∨ c = 13) :
    dropNewlines (c :: l) = dropNewlines l := by
  rcases h with rfl | rfl <;> rfl

theorem dropNewlines_cons_other (c : Nat) (l : List Nat) (h : ¬ (c = 10 ∨ c = 13)) :
    dropNewlines (c :: l) = c :: dropNewlines l := by
  have hp : (c != 10 && c != 13) = true := by
    simp only [Bool.and_eq_true, bne_iff_ne, ne_eq]
    exact not_or.mp h
  simp only [dropNewlines, List.filter_cons, hp, if_true]

/-- What `skipNewlines` leaves is empty when the input holds newlines only, and
begins with the first other byte otherwise. -/
theorem skipNewlines_drop : ∀ (l : List Nat) (si : Nat),
    ((skipNewlines l si).1 = [] ∧ dropNewlines l = []) ∨
    ∃ c r, (skipNewlines l si).1 = c :: r ∧ ¬ (c = 10 ∨ c = 13) ∧
      dropNewlines l = c :: dropNewlines r := by
  intro l
  induction l with
  | nil =>
    intro si
    left
    exact ⟨rfl, rfl⟩
  | cons x l ih =>
    intro si
    by_cases hx : x = 10 ∨ x = 13
    · have e : skipNewlines (x :: l) si = skipNewlines l (si + 1) := by
        simp only [skipNewlines, hx, if_true]
      rw [e, dropNewlines_cons_newline x l hx]
      exact ih (si + 1)
    · right
      refine ⟨x, l, ?_, hx, dropNewlines_cons_other x l hx⟩
      simp only [skipNewlines, hx, if_false]

/-- The padding is accepted exactly when it completes the quantum and only
newlines follow it. -/
theorem decodePadding_ok_iff (dbuf rest : List Nat) (si : Nat) (hj : dbuf.length ≤ 3) :
    (∃ out, decodePadding dbuf rest si = .ok out) ↔
      (dbuf.length = 3 ∧ dropNewlines rest = []) ∨
        (dbuf.length = 2 ∧ dropNewlines rest = [61]) := by
  have tail : ∀ (l : List Nat) (sj : Nat),
      (∃ out, (match skipNewlines l sj with
        | ([], _) => (.ok (quantumBytes dbuf) : Except Nat (List Nat))
        | (_ :: _, si3) => .error si3) = .ok out) ↔ dropNewlines l = [] := by
    intro l sj
    have hd := skipNewlines_drop l sj
    rcases hs : skipNewlines l sj with ⟨l3, si3⟩
    rw [hs] at hd
    cases l3 with
    | nil =>
      rcases hd with ⟨_, h⟩ | ⟨c, r, h, _⟩
      · simp [h]
      · exact absurd h (by simp)
    | cons y l3 =>
      rcases hd with ⟨h, _⟩ | ⟨c, r, _, _, h⟩
      · exact absurd h (by simp)
      · simp [h]
  unfold decodePadding
  by_cases h2 : dbuf.length < 2
  · simp only [h2, if_true]
    constructor
    · rintro ⟨out, h⟩
      exact absurd h (by simp)
    · rintro (⟨h, _⟩ | ⟨h, _⟩) <;> omega
  · simp only [h2, if_false]
    by_cases he : dbuf.length = 2
    · simp only [he, if_true]
      have hd := skipNewlines_drop rest si
      rcases hs : skipNewlines rest si with ⟨l1, si1⟩
      rw [hs] at hd
      cases l1 with
      | nil =>
        rcases hd with ⟨_, h⟩ | ⟨c, r, h, _⟩
        · simp [h]
        · exact absurd h (by simp)
      | cons c1 rest1 =>
        rcases hd with ⟨h, _⟩ | ⟨c, r, h, hc, hdrop⟩
        · exact absurd h (by simp)
        · simp only [List.cons.injEq] at h
          obtain ⟨h1, h2⟩ := h
          subst h1
          subst h2
          by_cases hc1 : c1 = padChar
          · simp only [hc1, ne_eq, not_true_eq_false, if_false]
            rw [tail rest1 (si1 + 1), hdrop, hc1]
            simp [padChar]
          · simp only [hc1, ne_eq, not_false_eq_true, if_true]
            rw [hdrop]
            have hc61 : c1 ≠ 61 := hc1
            simp [hc61]
    · simp only [he, if_false]
      rw [tail rest si]
      have h3 : dbuf.length = 3 := by omega
      simp [h3]

/-- The decoder accepts an input exactly when, newlines apart, the quantum in
progress and the input make whole groups of four, and the input is made of
characters of the alphabet followed by no, one or two padding characters. -/
theorem decodeLoop_ok_iff : ∀ (src : List Nat) (si : Nat) (dbuf : List Nat),
    dbuf.length ≤ 3 →
    ((∃ out, decodeLoop src si dbuf = .ok out) ↔
      (dbuf.length + (dropNewlines src).length) % 4 = 0 ∧
        ((dropNewlines src).dropWhile isAlphabetByte = [] ∨
          (dropNewlines src).dropWhile isAlphabetByte = [61] ∨
          (dropNewlines src).dropWhile isAlphabetByte = [61, 61])) := by
  intro src
  induction src with
  | nil =>
    intro si dbuf hj
    have e : dropNewlines [] = [] := rfl
    rw [e]
    by_cases h0 : dbuf.length = 0
    · simp [decodeLoop, h0]
    · simp only [decodeLoop, h0, if_false, List.length_nil, List.dropWhile_nil, true_or,
        and_true, Nat.add_zero]
      constructor
      · rintro ⟨out, h⟩
        exact absurd h (by simp)
      · intro h
        omega
  | cons x rest ih =>
    intro si dbuf hj
    by_cases hx : decodeMap x ≠ 255
    · have ha : isAlphabetByte x = true := (decodeMap_ne_255_iff x).mp hx
      have hnl : ¬ (x = 10 ∨ x = 13) := by
        intro h
        rcases h with rfl | rfl <;> exact absurd ha (by decide)
      rw [dropNewlines_cons_other x rest hnl, List.dropWhile_cons_of_pos ha, List.length_cons]
      by_cases hl : dbuf.length = 3
      · rw [decodeLoop_full x rest si dbuf hx hl]
        have ih0 := ih (si + 1) [] (by simp)
        have e : (∃ out, (match decodeLoop rest (si + 1) [] with
            | .ok out => Except.ok (quantumBytes (dbuf ++ [decodeMap x]) ++ out)
            | .error e => .error e) = .ok out) ↔ ∃ out, decodeLoop rest (si + 1) [] = .ok out := by
          cases decodeLoop rest (si + 1) [] with
          | ok o => simp
          | error e => simp
        rw [e, ih0, hl]
        simp only [List.length_nil]
        constructor <;> rintro ⟨h1, h2⟩ <;> exact ⟨by omega, h2⟩
      · have hj1 : (dbuf ++ [decodeMap x]).length ≤ 3 := by
          rw [List.length_append, List.length_singleton]
          omega
        rw [decodeLoop_push x rest si dbuf hx hl, ih (si + 1) (dbuf ++ [decodeMap x]) hj1]
        simp only [List.length_append, List.length_singleton]
        constructor <;> rintro ⟨h1, h2⟩ <;> exact ⟨by omega, h2⟩
    · have ha : isAlphabetByte x = false := by
        cases h : isAlphabetByte x with
        | false => rfl
        | true => exact absurd ((decodeMap_ne_255_iff x).mpr h) hx
      by_cases hnl : x = 10 ∨ x = 13
      · rw [dropNewlines_cons_newline x rest hnl]
        have e : decodeLoop (x :: rest) si dbuf = decodeLoop rest (si + 1) dbuf := by
          simp only [decodeLoop, hx, if_false, hnl, if_true]
        rw [e]
        exact ih (si + 1) dbuf hj
      · have hna : ¬ isAlphabetByte x = true := by simp [ha]
        rw [dropNewlines_cons_other x rest hnl, List.dropWhile_cons_of_neg hna, List.length_cons]
        by_cases hp : x = padChar
        · have hp' : ¬ x ≠ padChar := by simpa using hp
          have e : decodeLoop (x :: rest) si dbuf = decodePadding dbuf rest (si + 1) := by
            simp only [decodeLoop, hx, if_false, hnl, hp']
          have hp61 : x = 61 := hp
          rw [e, decodePadding_ok_iff dbuf rest (si + 1) hj, hp61]
          constructor
          · rintro (⟨h1, h2⟩ | ⟨h1, h2⟩)
            · rw [h1, h2]
              simp
            · rw [h1, h2]
              simp
          · rintro ⟨h1, h2 | h2 | h2⟩
            · exact absurd h2 (by simp)
            · have h3 : dropNewlines rest = [] := by simpa using h2
              rw [h3] at h1 ⊢
              simp only [List.length_nil] at h1
              left
              exact ⟨by omega, rfl⟩
            · have h3 : dropNewlines rest = [61] := by simpa using h2
              rw [h3] at h1 ⊢
              simp only [List.length_singleton] at h1
              right
              exact ⟨by omega, rfl⟩
        · have e : decodeLoop (x :: rest) si dbuf = .error (si + 1 - 1) := by
            simp only [decodeLoop, hx, if_false, hnl, hp, ne_eq, not_false_eq_true, if_true]
          have hp61 : x ≠ 61 := hp
          rw [e]
          constructor
          · rintro ⟨out, h⟩
            exact absurd h (by simp)
          · rintro ⟨_, h | h | h⟩
            · exact absurd h (by simp)
            · simp only [List.cons.injEq] at h
              exact absurd h.1 hp61
            · simp only [List.cons.injEq] at h
              exact absurd h.1 hp61

/-- The strings that `DecodeString` accepts are those that are valid standard
base64 once their carriage returns and line feeds are left out. -/
theorem DecodeString_ok_iff (s : String) :
    (∃ out, DecodeString s = .ok out) ↔ IsStdBase64 (dropNewlines (bytesOfString s)) = true := by
  have h := decodeLoop_ok_iff (bytesOfString s) 0 [] (by simp)
  have e : (∃ out, DecodeString s = .ok out) ↔ ∃ out, decodeLoop (bytesOfString s) 0 [] = .ok out := by
    unfold DecodeString
    cases decodeLoop (bytesOfString s) 0 [] with
    | ok o => simp
    | error n => simp
  rw [e, h]
  simp [IsStdBase64, or_assoc]

theorem DecodeString_error_iff (s : String) :
    (∃ e, DecodeString s = .error e) ↔ IsStdBase64 (dropNewlines (bytesOfString s)) = false := by
  have h := DecodeString_ok_iff s
  cases hd : DecodeString s with
  | ok o =>
    rw [hd] at h
    have ht : IsStdBase64 (dropNewlines (bytesOfString s)) = true := h.mp ⟨o, rfl⟩
    simp [ht]
  | error e =>
    rw [hd] at h
    have hf : IsStdBase64 (dropNewlines (bytesOfString s)) = false := by
      cases hb : IsStdBase64 (dropNewlines (bytesOfString s)) with
      | false => rfl
      | true =>
        obtain ⟨o, ho⟩ := h.mpr hb
        exact absurd ho (by simp)
    simp [hf]

/-- A valid standard-base64 string holds no newline. -/
theorem dropNewlines_of_std (bs : List Nat) (h : IsStdBase64 bs = true) :
    dropNewlines bs = bs := by
  unfold dropNewlines
  rw [List.filter_eq_self]
  intro c hc
  have hne : c ≠ 10 ∧ c ≠ 13 := by
    rw [← List.takeWhile_append_dropWhile isAlphabetByte bs] at hc
    rcases List.mem_append.mp hc with h1 | h2
    · have ha : isAlphabetByte c = true := (List.mem_takeWhile_imp h1)
      unfold isAlphabetByte at ha
      rw [decide_eq_true_iff] at ha
      omega
    · have hpad : c = 61 := by
        simp only [IsStdBase64, Bool.and_eq_true, Bool.or_eq_true, beq_iff_eq] at h
        rcases h.2 with (h3 | h3) | h3
        · rw [h3] at h2
          exact absurd h2 (List.not_mem_nil c)
        · rw [h3] at h2
          simpa using h2
        · rw [h3] at h2
          simpa using h2
      omega
  simp only [Bool.and_eq_true, bne_iff_ne, ne_eq]
  exact hne


/-! ## The token codec -/

theorem Itoa_lt_256 (n : Int) : ∀ b ∈ Itoa n, b < 256 := by
  have hd := formatBits_digits 65 n.natAbs [] (fun _ h => absurd h (List.not_mem_nil _))
  intro b hb
  unfold Itoa at hb
  split at hb
  · rcases List.mem_cons.mp hb with rfl | hb
    · decide
    · have := hd b hb
      omega
  · have := hd b hb
    omega

/-- The codec is the identity on every value of the type `int`. -/
theorem DecodeToken_EncodeToken_int (n : Int) (h1 : minInt ≤ n) (h2 : n ≤ maxInt) :
    DecodeToken (EncodeToken n) = .ok n := by
  unfold minInt at h1
  unfold maxInt at h2
  unfold DecodeToken EncodeToken
  simp only [DecodeString_EncodeToString (Itoa n) (Itoa_lt_256 n)]
  rw [Atoi_Itoa n h1 (by omega)]

/-- C1. Token round trip: for every non-negative `int` `n`,
`DecodeToken(EncodeToken(n))` returns `n` with a nil error. -/
theorem DecodeToken_EncodeToken (n : Int) (h0 : 0 ≤ n) (hmax : n ≤ maxInt) :
    DecodeToken (EncodeToken n) = .ok n :=
  DecodeToken_EncodeToken_int n (by unfold minInt; omega) hmax

theorem DecodeToken_EncodeToken_witness :
    (0 : Int) ≤ 20 ∧ (20 : Int) ≤ maxInt ∧ DecodeToken (EncodeToken 20) = .ok 20 :=
  ⟨by decide, by decide, DecodeToken_EncodeToken 20 (by decide) (by decide)⟩

/-! ## Folder store access -/

theorem filterLoop_ok (isValid : String → Bool) (orgID : UUID) (folders : List Folder) :
    ∀ acc, (∀ f ∈ folders, f.OrgId = orgID → isValid f.Id.String = true) →
      filterLoop isValid orgID folders acc = .ok (acc ++ filtered folders orgID) := by
  induction folders with
  | nil => intro acc _; simp [filterLoop, filtered]
  | cons f folders ih =>
    intro acc h
    have ih' := fun acc => ih acc (fun g hg => h g (List.mem_cons_of_mem f hg))
    by_cases hf : f.OrgId = orgID
    · have hv := h f (List.mem_cons_self f folders) hf
      simp only [filterLoop, hf, if_true, hv, Bool.not_true, Bool.false_eq_true, if_false, ih']
      simp [filtered, List.filter_cons, hf] at *
    · simp only [filterLoop, hf, if_false, ih']
      simp [filtered, List.filter_cons, hf] at *

theorem filterLoop_inv (isValid : String → Bool) (orgID : UUID) (folders : List Folder) :
    ∀ acc r, filterLoop isValid orgID folders acc = .ok r →
      r = acc ++ filtered folders orgID ∧
        ∀ f ∈ folders, f.OrgId = orgID → isValid f.Id.String = true := by
  induction folders with
  | nil =>
    intro acc r h
    simp only [filterLoop, Except.ok.injEq] at h
    simp [filtered, h]
  | cons f folders ih =>
    intro acc r h
    by_cases hf : f.OrgId = orgID
    · by_cases hv : isValid f.Id.String = true
      · simp only [filterLoop, hf, if_true, hv, Bool.not_true, Bool.false_eq_true,
          if_false] at h
        obtain ⟨h1, h2⟩ := ih _ _ h
        refine ⟨?_, ?_⟩
        · simp [filtered, List.filter_cons, hf] at h1 ⊢
          exact h1
        · intro g hg hgo
          rcases List.mem_cons.mp hg with rfl | hg
          · exact hv
          · exact h2 g hg hgo
      · simp [filterLoop, hf, hv] at h
    · simp only [filterLoop, hf, if_false] at h
      obtain ⟨h1, h2⟩ := ih _ _ h
      refine ⟨?_, ?_⟩
      · simp [filtered, List.filter_cons, hf] at h1 ⊢
        exact h1
      · intro g hg hgo
        rcases List.mem_cons.mp hg with rfl | hg
        · exact absurd hgo hf
        · exact h2 g hg hgo

/-- The loop fails at the first folder of the organisation whose identifier is
not valid, with a message that names the organisation and that folder. -/
theorem filterLoop_error (isValid : String → Bool) (orgID : UUID) (folders : List Folder) :
    ∀ acc e, filterLoop isValid orgID folders acc = .error e →
      ∃ pre f post, folders = pre ++ f :: post ∧
        (∀ g ∈ pre, g.OrgId = orgID → isValid g.Id.String = true) ∧
        f.OrgId = orgID ∧ isValid f.Id.String = false ∧
        e = .error ("folder with non-valid ID found for OrgID: " ++ orgID.String
          ++ " on folder named " ++ f.Name) := by
  induction folders with
  | nil => intro acc e h; simp [filterLoop] at h
  | cons f folders ih =>
    intro acc e h
    by_cases hf : f.OrgId = orgID
    · by_cases hv : isValid f.Id.String = true
      · simp only [filterLoop, hf, if_true, hv, Bool.not_true, Bool.false_eq_true,
          if_false] at h
        obtain ⟨pre, g, post, h1, h2, h3, h4, h5⟩ := ih _ _ h
        refine ⟨f :: pre, g, post, by simp [h1], ?_, h3, h4, h5⟩
        intro x hx hxo
        rcases List.mem_cons.mp hx with rfl | hx
        · exact hv
        · exact h2 x hx hxo
      · have hv' : isValid f.Id.String = false := by simpa using hv
        simp only [filterLoop, hf, if_true, hv', Bool.not_false, Except.error.injEq] at h
        exact ⟨[], f, folders, rfl, by simp, hf, hv', h.symm⟩
    · simp only [filterLoop, hf, if_false] at h
      obtain ⟨pre, g, post, h1, h2, h3, h4, h5⟩ := ih _ _ h
      refine ⟨f :: pre, g, post, by simp [h1], ?_, h3, h4, h5⟩
      intro x hx hxo
      rcases List.mem_cons.mp hx with rfl | hx
      · exact absurd hxo hf
      · exact h2 x hx hxo

theorem filtered_length_le (sample : List Folder) (orgID : UUID) :
    (filtered sample orgID).length ≤ sample.length :=
  List.length_filter_le _ _

/-! ## The pagination engine -/

theorem wrapInt_of_range (x : Int) (h1 : -(2 ^ 63) ≤ x) (h2 : x < 2 ^ 63) : wrapInt x = x := by
  unfold wrapInt
  omega

/-- The call, once the folders are known to be valid and the offset of the token
is known to be `start ≥ 0`: what is left is the window and the two tokens. -/
theorem fetch_of_start (sample : List Folder) (orgID : UUID) (L : Int) (Token : String)
    (start : Int)
    (hvalid : ∀ f ∈ sample, f.OrgId = orgID → IsValidUUIDv4 f.Id.String = true)
    (hstart : Token = "" ∧ start = 0 ∨ Token ≠ "" ∧ DecodeToken Token = .ok start)
    (h0 : 0 ≤ start) :
    FetchAllFoldersByOrgIDsInPag sample orgID L Token =
      match sliceExpr (filtered sample orgID) start
          (if wrapInt (start + L) > ((filtered sample orgID).length : Int)
            then ((filtered sample orgID).length : Int) else wrapInt (start + L)) with
      | .error e => .error e
      | .ok page =>
        .ok (page,
          (if (if wrapInt (start + L) > ((filtered sample orgID).length : Int)
                then ((filtered sample orgID).length : Int) else wrapInt (start + L))
              < ((filtered sample orgID).length : Int)
            then EncodeToken (if wrapInt (start + L) > ((filtered sample orgID).length : Int)
                then ((filtered sample orgID).length : Int) else wrapInt (start + L))
            else ""),
          (if start > 0
            then EncodeToken (if wrapInt (start - L) < 0 then 0 else wrapInt (start - L))
            else "")) := by
  have hneg : ¬ start < 0 := by omega
  unfold FetchAllFoldersByOrgIDsInPag
  rw [filterLoop_ok IsValidUUIDv4 orgID sample [] hvalid]
  rcases hstart with ⟨ht, hs⟩ | ⟨ht, hd⟩
  · subst hs
    simp only [ht, ne_eq, not_true_eq_false, if_false, List.nil_append, lt_self_iff_false]
  · simp only [ht, ne_eq, not_false_eq_true, if_true, hd, hneg, if_false, List.nil_append]

/-- A call with a page limit in 1..999 that returns: the folders are valid, the
offset lies between 0 and the number of folders, and the three results are the
window and the tokens of the spec. -/
theorem fetch_ok_inv (sample : List Folder) (orgID : UUID) (L : Int) (Token : String)
    (start : Int) (page : List Folder) (next prev : String)
    (hL : 1 ≤ L ∧ L ≤ 999)
    (hstart : Token = "" ∧ start = 0 ∨ Token ≠ "" ∧ DecodeToken Token = .ok start)
    (hok : FetchAllFoldersByOrgIDsInPag sample orgID L Token = .ok (page, next, prev)) :
    (∀ f ∈ sample, f.OrgId = orgID → IsValidUUIDv4 f.Id.String = true) ∧
      0 ≤ start ∧ start ≤ ((filtered sample orgID).length : Int) ∧ start + L < 2 ^ 63 ∧
      page = window (filtered sample orgID) start.toNat
        (min (start + L) ((filtered sample orgID).length : Int)).toNat ∧
      next = (if min (start + L) ((filtered sample orgID).length : Int)
            < ((filtered sample orgID).length : Int)
          then EncodeToken (min (start + L) ((filtered sample orgID).length : Int)) else "") ∧
      prev = (if start > 0 then EncodeToken (max (start - L) 0) else "") := by
  have hvalid : ∀ f ∈ sample, f.OrgId = orgID → IsValidUUIDv4 f.Id.String = true := by
    unfold FetchAllFoldersByOrgIDsInPag at hok
    split at hok
    · exact absurd hok (by simp)
    · next r hr => exact (filterLoop_inv _ _ _ _ _ hr).2
  have h0 : 0 ≤ start := by
    rcases hstart with ⟨_, hs⟩ | ⟨ht, hd⟩
    · omega
    · by_contra hneg
      have hneg' : start < 0 := by omega
      unfold FetchAllFoldersByOrgIDsInPag at hok
      rw [filterLoop_ok IsValidUUIDv4 orgID sample [] hvalid] at hok
      simp [ht, hd, hneg'] at hok
  rw [fetch_of_start sample orgID L Token start hvalid hstart h0] at hok
  generalize hS : ((filtered sample orgID).length : Int) = S at hok ⊢
  have hS0 : 0 ≤ S := by rw [← hS]; exact Int.natCast_nonneg _
  generalize he0 : (if wrapInt (start + L) > S then S else wrapInt (start + L)) = e at hok
  unfold sliceExpr at hok
  rw [hS] at hok
  by_cases hcond : 0 ≤ start ∧ start ≤ e ∧ e ≤ S
  · have hnowrap : start + L < 2 ^ 63 := by
      obtain ⟨_, hle1, hle2⟩ := hcond
      unfold wrapInt at he0
      split_ifs at he0 with hgt <;> omega
    have hw : wrapInt (start + L) = start + L := wrapInt_of_range _ (by omega) hnowrap
    have hw' : wrapInt (start - L) = start - L :=
      wrapInt_of_range _ (by omega) (by omega)
    have he : e = min (start + L) S := by
      rw [← he0, hw]
      split_ifs with hgt
      · rw [min_eq_right (by omega)]
      · rw [min_eq_left (by omega)]
    have hp : (if start - L < 0 then 0 else start - L) = max (start - L) 0 := by
      split_ifs with hgt
      · rw [max_eq_right (by omega)]
      · rw [max_eq_left (by omega)]
    rw [if_pos hcond, hw', hp, he] at hok
    simp only [Except.ok.injEq, Prod.mk.injEq] at hok
    obtain ⟨h1, h2, h3⟩ := hok
    refine ⟨hvalid, h0, by omega, hnowrap, ?_, h2.symm, h3.symm⟩
    rw [← h1]
    rfl
  · rw [if_neg hcond] at hok
    exact absurd hok (by simp)

/-- A call with valid folders and an offset between 0 and the number of folders
returns, when the end of the window does not overflow. -/
theorem fetch_ok (sample : List Folder) (orgID : UUID) (L : Int) (Token : String)
    (start : Int)
    (hvalid : ∀ f ∈ sample, f.OrgId = orgID → IsValidUUIDv4 f.Id.String = true)
    (hL : 1 ≤ L ∧ L ≤ 999)
    (hstart : Token = "" ∧ start = 0 ∨ Token ≠ "" ∧ DecodeToken Token = .ok start)
    (h0 : 0 ≤ start) (hle : start ≤ ((filtered sample orgID).length : Int))
    (hnowrap : start + L < 2 ^ 63) :
    FetchAllFoldersByOrgIDsInPag sample orgID L Token =
      .ok (window (filtered sample orgID) start.toNat
          (min (start + L) ((filtered sample orgID).length : Int)).toNat,
        (if min (start + L) ((filtered sample orgID).length : Int)
            < ((filtered sample orgID).length : Int)
          then EncodeToken (min (start + L) ((filtered sample orgID).length : Int)) else ""),
        (if start > 0 then EncodeToken (max (start - L) 0) else "")) := by
  rw [fetch_of_start sample orgID L Token start hvalid hstart h0]
  generalize hS : ((filtered sample orgID).length : Int) = S at hle ⊢
  have hw : wrapInt (start + L) = start + L := wrapInt_of_range _ (by omega) hnowrap
  have hw' : wrapInt (start - L) = start - L := wrapInt_of_range _ (by omega) (by omega)
  have he : (if start + L > S then S else start + L) = min (start + L) S := by
    split_ifs with hgt
    · rw [min_eq_right (by omega)]
    · rw [min_eq_left (by omega)]
  have hp : (if start - L < 0 then 0 else start - L) = max (start - L) 0 := by
    split_ifs with hgt
    · rw [max_eq_right (by omega)]
    · rw [max_eq_left (by omega)]
  rw [hw, hw', he, hp]
  have hcond : 0 ≤ start ∧ start ≤ min (start + L) S ∧ min (start + L) S ≤ S := by
    refine ⟨h0, ?_, min_le_right _ _⟩
    rw [le_min_iff]
    omega
  unfold sliceExpr
  rw [hS]
  simp only [hcond, and_self, if_true]
  rfl

/-- A call with valid folders and an offset beyond the number of folders does
not return: the slice expression panics. -/
theorem fetch_panics (sample : List Folder) (orgID : UUID) (L : Int) (Token : String)
    (start : Int)
    (hvalid : ∀ f ∈ sample, f.OrgId = orgID → IsValidUUIDv4 f.Id.String = true)
    (hL : 1 ≤ L ∧ L ≤ 999)
    (hstart : Token = "" ∧ start = 0 ∨ Token ≠ "" ∧ DecodeToken Token = .ok start)
    (hgt : ((filtered sample orgID).length : Int) < start)
    (hnowrap : start + L < 2 ^ 63) :
    FetchAllFoldersByOrgIDsInPag sample orgID L Token =
      .error (.sliceBoundsOutOfRange start ((filtered sample orgID).length : Int)) := by
  have h0 : 0 ≤ start := by
    have := Int.natCast_nonneg (filtered sample orgID).length
    omega
  rw [fetch_of_start sample orgID L Token start hvalid hstart h0]
  generalize hS : ((filtered sample orgID).length : Int) = S at hgt ⊢
  have hw : wrapInt (start + L) = start + L := wrapInt_of_range _ (by omega) hnowrap
  have he : (if start + L > S then S else start + L) = S := by
    rw [if_pos (by omega)]
  rw [hw, he]
  unfold sliceExpr
  rw [hS]
  have hcond : ¬ (0 ≤ start ∧ start ≤ S ∧ S ≤ S) := by omega
  simp only [hcond, if_false]

theorem window_length_le {α : Type} (F : List α) (lo hi : Nat) :
    (window F lo hi).length ≤ hi - lo := by
  unfold window
  rw [List.length_take]
  exact min_le_left _ _

/-- The call at an offset given as a natural number not above the number of
folders, for a sample that is a Go slice. -/
theorem fetch_ok_nat (sample : List Folder) (orgID : UUID) (L : Int) (Token : String)
    (start : Nat)
    (hlen : sample.length ≤ maxSliceLen)
    (hvalid : ∀ f ∈ sample, f.OrgId = orgID → IsValidUUIDv4 f.Id.String = true)
    (hL : 1 ≤ L ∧ L ≤ 999)
    (hstart : Token = "" ∧ start = 0 ∨ Token ≠ "" ∧ DecodeToken Token = .ok (start : Int))
    (hle : start ≤ (filtered sample orgID).length) :
    FetchAllFoldersByOrgIDsInPag sample orgID L Token =
      .ok (window (filtered sample orgID) start
          (min (start + L.toNat) (filtered sample orgID).length),
        (if min ((start : Int) + L) ((filtered sample orgID).length : Int)
            < ((filtered sample orgID).length : Int)
          then EncodeToken (min ((start : Int) + L) ((filtered sample orgID).length : Int))
          else ""),
        (if (start : Int) > 0 then EncodeToken (max ((start : Int) - L) 0) else "")) := by
  have hS := filtered_length_le sample orgID
  unfold maxSliceLen at hlen
  have hstart' : Token = "" ∧ (start : Int) = 0 ∨
      Token ≠ "" ∧ DecodeToken Token = .ok (start : Int) := by
    rcases hstart with ⟨h1, h2⟩ | h
    · exact Or.inl ⟨h1, by omega⟩
    · exact Or.inr h
  have h := fetch_ok sample orgID L Token (start : Int) hvalid hL hstart' (by omega)
    (by omega) (by omega)
  have e1 : (start : Int).toNat = start := by omega
  have e2 : (min ((start : Int) + L) ((filtered sample orgID).length : Int)).toNat
      = min (start + L.toNat) (filtered sample orgID).length := by omega
  rw [e1, e2] at h
  exact h

/-- C2. Page window: when the folders of the organisation all have valid
identifiers, the page limit is in 1..999 and the token is empty (offset 0) or
decodes to an offset `start` below the number `S` of those folders, the call
succeeds and its page is exactly the half-open window
`F[start : min(start + pageLimit, S)]` of the filtered list `F`; the page has at
most `pageLimit` folders. The sample is a Go slice, so its length is bounded. -/
theorem page_window (sample : List Folder) (orgID : UUID) (PageLimit : Int) (Token : String)
    (start : Nat)
    (hlen : sample.length ≤ maxSliceLen)
    (hvalid : ∀ f ∈ sample, f.OrgId = orgID → IsValidUUIDv4 f.Id.String = true)
    (hL : 1 ≤ PageLimit ∧ PageLimit ≤ 999)
    (htok : Token = "" ∧ start = 0 ∨
      Token ≠ "" ∧ DecodeToken Token = .ok (start : Int) ∧
        start < (filtered sample orgID).length) :
    ∃ next prev,
      FetchAllFoldersByOrgIDsInPag sample orgID PageLimit Token =
        .ok (window (filtered sample orgID) start
          (min (start + PageLimit.toNat) (filtered sample orgID).length), next, prev) ∧
      ((window (filtered sample orgID) start
          (min (start + PageLimit.toNat) (filtered sample orgID).length)).length : Int)
        ≤ PageLimit := by
  have hle : start ≤ (filtered sample orgID).length := by
    rcases htok with ⟨_, h⟩ | ⟨_, _, h⟩ <;> omega
  have hstart : Token = "" ∧ start = 0 ∨ Token ≠ "" ∧ DecodeToken Token = .ok (start : Int) := by
    rcases htok with h | ⟨h1, h2, _⟩
    · exact Or.inl h
    · exact Or.inr ⟨h1, h2⟩
  refine ⟨_, _, fetch_ok_nat sample orgID PageLimit Token start hlen hvalid hL hstart hle, ?_⟩
  have := window_length_le (filtered sample orgID) start
    (min (start + PageLimit.toNat) (filtered sample orgID).length)
  omega

theorem page_window_witness :
    (sampleA 25).length ≤ maxSliceLen ∧
    (∀ f ∈ sampleA 25, f.OrgId = orgA → IsValidUUIDv4 f.Id.String = true) ∧
    ((1 : Int) ≤ 10 ∧ (10 : Int) ≤ 999) ∧
    DecodeToken (EncodeToken 20) = .ok ((20 : Nat) : Int) ∧
    20 < (filtered (sampleA 25) orgA).length ∧
    ∃ next prev,
      FetchAllFoldersByOrgIDsInPag (sampleA 25) orgA 10 (EncodeToken 20) =
        .ok (window (filtered (sampleA 25) orgA) 20
          (min (20 + (10 : Int).toNat) (filtered (sampleA 25) orgA).length), next, prev) ∧
      ((window (filtered (sampleA 25) orgA) 20
          (min (20 + (10 : Int).toNat) (filtered (sampleA 25) orgA).length)).length : Int)
        ≤ 10 :=
  ⟨by decide, by decide, by decide, by decide, by decide,
    page_window (sampleA 25) orgA 10 (EncodeToken 20) 20 (by decide) (by decide) (by decide)
      (Or.inr ⟨by decide, by decide, by decide⟩)⟩

/-- C3. Next token: for every call with a page limit in 1..999 that returns,
with `start` the offset of its token (0 for the empty token), `S` the number of
folders of the organisation and `endIndex = min(start + pageLimit, S)`: the next
token is `EncodeToken(endIndex)`, which decodes to `endIndex`, when
`endIndex < S`, and is the empty string otherwise. -/
theorem next_token (sample : List Folder) (orgID : UUID) (PageLimit : Int) (Token : String)
    (start : Int) (page : List Folder) (next prev : String)
    (hL : 1 ≤ PageLimit ∧ PageLimit ≤ 999)
    (hstart : Token = "" ∧ start = 0 ∨ Token ≠ "" ∧ DecodeToken Token = .ok start)
    (hok : FetchAllFoldersByOrgIDsInPag sample orgID PageLimit Token = .ok (page, next, prev)) :
    (min (start + PageLimit) ((filtered sample orgID).length : Int)
        < ((filtered sample orgID).length : Int) →
      next = EncodeToken (min (start + PageLimit) ((filtered sample orgID).length : Int)) ∧
      DecodeToken next = .ok (min (start + PageLimit) ((filtered sample orgID).length : Int))) ∧
    (¬ min (start + PageLimit) ((filtered sample orgID).length : Int)
        < ((filtered sample orgID).length : Int) → next = "") := by
  obtain ⟨_, h0, hle, hnowrap, _, hnext, _⟩ :=
    fetch_ok_inv sample orgID PageLimit Token start page next prev hL hstart hok
  constructor
  · intro hlt
    rw [if_pos hlt] at hnext
    refine ⟨hnext, ?_⟩
    rw [hnext]
    apply DecodeToken_EncodeToken_int
    · unfold minInt
      have : 0 ≤ min (start + PageLimit) ((filtered sample orgID).length : Int) := by
        rw [le_min_iff]
        constructor <;> omega
      omega
    · unfold maxInt
      have := min_le_left (start + PageLimit) ((filtered sample orgID).length : Int)
      omega
  · intro hlt
    rw [if_neg hlt] at hnext
    exact hnext

theorem next_token_witness :
    ((1 : Int) ≤ 10 ∧ (10 : Int) ≤ 999) ∧
    FetchAllFoldersByOrgIDsInPag (sampleA 25) orgA 10 "" =
      .ok ((sampleA 25).take 10, "MTA=", "") ∧
    ((min ((0 : Int) + 10) ((filtered (sampleA 25) orgA).length : Int)
        < ((filtered (sampleA 25) orgA).length : Int) →
      "MTA=" = EncodeToken (min ((0 : Int) + 10) ((filtered (sampleA 25) orgA).length : Int)) ∧
      DecodeToken "MTA=" =
        .ok (min ((0 : Int) + 10) ((filtered (sampleA 25) orgA).length : Int))) ∧
    (¬ min ((0 : Int) + 10) ((filtered (sampleA 25) orgA).length : Int)
        < ((filtered (sampleA 25) orgA).length : Int) → "MTA=" = "")) :=
  ⟨by decide, by decide,
    next_token (sampleA 25) orgA 10 "" 0 ((sampleA 25).take 10) "MTA=" "" (by decide)
      (Or.inl ⟨rfl, rfl⟩) (by decide)⟩

/-- C4. Previous token: for every call with a page limit in 1..999 that
returns, with `start` the offset of its token (0 for the empty token): the
previous token is `EncodeToken(max(start - pageLimit, 0))`, which decodes to that
offset, when `start > 0`, and is the empty string when `start = 0`. -/
theorem prev_token (sample : List Folder) (orgID : UUID) (PageLimit : Int) (Token : String)
    (start : Int) (page : List Folder) (next prev : String)
    (hL : 1 ≤ PageLimit ∧ PageLimit ≤ 999)
    (hstart : Token = "" ∧ start = 0 ∨ Token ≠ "" ∧ DecodeToken Token = .ok start)
    (hok : FetchAllFoldersByOrgIDsInPag sample orgID PageLimit Token = .ok (page, next, prev)) :
    (start > 0 →
      prev = EncodeToken (max (start - PageLimit) 0) ∧
      DecodeToken prev = .ok (max (start - PageLimit) 0)) ∧
    (start = 0 → prev = "") := by
  obtain ⟨_, h0, hle, hnowrap, _, _, hprev⟩ :=
    fetch_ok_inv sample orgID PageLimit Token start page next prev hL hstart hok
  constructor
  · intro hgt
    rw [if_pos hgt] at hprev
    refine ⟨hprev, ?_⟩
    rw [hprev]
    apply DecodeToken_EncodeToken_int
    · unfold minInt
      have := le_max_right (start - PageLimit) 0
      omega
    · unfold maxInt
      have : max (start - PageLimit) 0 ≤ start := by
        rw [max_le_iff]
        constructor <;> omega
      omega
  · intro hz
    rw [if_neg (by omega)] at hprev
    exact hprev

theorem prev_token_witness :
    ((1 : Int) ≤ 10 ∧ (10 : Int) ≤ 999) ∧
    DecodeToken (EncodeToken 20) = .ok 20 ∧
    FetchAllFoldersByOrgIDsInPag (sampleA 25) orgA 10 (EncodeToken 20) =
      .ok ((sampleA 25).drop 20, "", "MTA=") ∧
    (((20 : Int) > 0 →
      "MTA=" = EncodeToken (max ((20 : Int) - 10) 0) ∧
      DecodeToken "MTA=" = .ok (max ((20 : Int) - 10) 0)) ∧
    ((20 : Int) = 0 → "MTA=" = "")) :=
  ⟨by decide, by decide, by decide,
    prev_token (sampleA 25) orgA 10 (EncodeToken 20) 20 ((sampleA 25).drop 20) "" "MTA="
      (by decide) (Or.inr ⟨by decide, by decide⟩) (by decide)⟩

/-- An offset equal to the number of folders of the organisation gives an empty
page, an empty next token, and no failure. -/
theorem fetch_at_end (sample : List Folder) (orgID : UUID) (PageLimit : Int) (Token : String)
    (hlen : sample.length ≤ maxSliceLen)
    (hvalid : ∀ f ∈ sample, f.OrgId = orgID → IsValidUUIDv4 f.Id.String = true)
    (hL : 1 ≤ PageLimit ∧ PageLimit ≤ 999)
    (hstart : Token = "" ∧ ((filtered sample orgID).length : Int) = 0 ∨
      Token ≠ "" ∧ DecodeToken Token = .ok ((filtered sample orgID).length : Int)) :
    ∃ prev, FetchAllFoldersByOrgIDsInPag sample orgID PageLimit Token = .ok ([], "", prev) := by
  have hS := filtered_length_le sample orgID
  unfold maxSliceLen at hlen
  have h := fetch_ok sample orgID PageLimit Token ((filtered sample orgID).length : Int)
    hvalid hL hstart (by omega) (by omega) (by omega)
  have e : min (((filtered sample orgID).length : Int) + PageLimit)
      ((filtered sample orgID).length : Int) = ((filtered sample orgID).length : Int) := by
    rw [min_eq_right (by omega)]
  rw [e, if_neg (by omega)] at h
  have hw : window (filtered sample orgID) ((filtered sample orgID).length : Int).toNat
      ((filtered sample orgID).length : Int).toNat = [] := by
    simp [window]
  rw [hw] at h
  exact ⟨_, h⟩

/-- C5, the code at the failing input: with 25 folders, a page limit of 10 and
the token of offset 30, which is past the end, the call does not return an empty
page: the slice expression `resFolder[30:25]` panics. -/
theorem start_past_end_panics :
    (∀ f ∈ sampleA 25, f.OrgId = orgA → IsValidUUIDv4 f.Id.String = true) ∧
    (filtered (sampleA 25) orgA).length = 25 ∧
    DecodeToken (EncodeToken 30) = .ok 30 ∧
    FetchAllFoldersByOrgIDsInPag (sampleA 25) orgA 10 (EncodeToken 30) =
      .error (.sliceBoundsOutOfRange 30 25) := by
  decide

/-! ## Request handlers -/

/-- Two messages differ when the fixed beginning of the first is not a
beginning of the second. -/
theorem append_ne_of_not_prefix (a x b : String) (h : ¬ a.data <+: b.data) : a ++ x ≠ b := by
  intro e
  apply h
  rw [← e, String.data_append]
  exact List.prefix_append _ _

theorem DecodeToken_empty : DecodeToken "" = .ok 0 := by decide

/-- The offset of a token that decodes, in the form in which the engine computes it. -/
theorem start_of_decode (Token : String) (start : Int) (h : DecodeToken Token = .ok start) :
    Token = "" ∧ start = 0 ∨ Token ≠ "" ∧ DecodeToken Token = .ok start := by
  by_cases ht : Token = ""
  · left
    subst ht
    rw [DecodeToken_empty] at h
    simp only [Except.ok.injEq] at h
    exact ⟨rfl, h.symm⟩
  · exact Or.inr ⟨ht, h⟩

/-- A token that does not decode is refused by the engine once the folders have
been found valid. -/
theorem fetch_bad_token (sample : List Folder) (orgID : UUID) (L : Int) (Token : String)
    (e : String)
    (hvalid : ∀ f ∈ sample, f.OrgId = orgID → IsValidUUIDv4 f.Id.String = true)
    (hbad : DecodeToken Token = .error e) :
    FetchAllFoldersByOrgIDsInPag sample orgID L Token =
      .error (.error ("invalid token: " ++ e)) := by
  have ht : Token ≠ "" := by
    intro h
    subst h
    rw [DecodeToken_empty] at hbad
    exact absurd hbad (by simp)
  unfold FetchAllFoldersByOrgIDsInPag
  rw [filterLoop_ok IsValidUUIDv4 orgID sample [] hvalid]
  simp only [ht, ne_eq, not_false_eq_true, if_true, hbad]

/-- A token that decodes to a negative offset is refused by the engine once the
folders have been found valid. -/
theorem fetch_negative_token (sample : List Folder) (orgID : UUID) (L : Int) (Token : String)
    (n : Int)
    (hvalid : ∀ f ∈ sample, f.OrgId = orgID → IsValidUUIDv4 f.Id.String = true)
    (hdec : DecodeToken Token = .ok n) (hneg : n < 0) :
    FetchAllFoldersByOrgIDsInPag sample orgID L Token =
      .error (.error "invalid token: token must be non-negative") := by
  have ht : Token ≠ "" := by
    intro h
    subst h
    rw [DecodeToken_empty] at hdec
    simp only [Except.ok.injEq] at hdec
    omega
  unfold FetchAllFoldersByOrgIDsInPag
  rw [filterLoop_ok IsValidUUIDv4 orgID sample [] hvalid]
  simp only [ht, ne_eq, not_false_eq_true, if_true, hdec, hneg]

/-- A slice expression fails only by its panic. -/
theorem sliceExpr_error {α : Type} (s : List α) (low high : Int) (p : Failure)
    (h : sliceExpr s low high = .error p) : p = .sliceBoundsOutOfRange low high := by
  unfold sliceExpr at h
  split at h
  · exact absurd h (by simp)
  · simp only [Except.error.injEq] at h
    exact h.symm

/-- Every error that the engine returns begins with one of two fixed texts. -/
theorem fetch_error_shape (sample : List Folder) (orgID : UUID) (L : Int) (Token : String)
    (msg : String)
    (h : FetchAllFoldersByOrgIDsInPag sample orgID L Token = .error (.error msg)) :
    (∃ x, msg = "folder with non-valid ID found for OrgID: " ++ x) ∨
      (∃ x, msg = "invalid token: " ++ x) := by
  unfold FetchAllFoldersByOrgIDsInPag at h
  split at h
  · next e he =>
    obtain ⟨_, f, _, _, _, _, _, h5⟩ := filterLoop_error _ _ _ _ _ he
    left
    refine ⟨orgID.String ++ " on folder named " ++ f.Name, ?_⟩
    simp only [Except.error.injEq] at h
    rw [h5] at h
    simp only [Failure.error.injEq] at h
    rw [← h]
    simp only [String.append_assoc]
  · next resFolder _ =>
    right
    by_cases ht : Token = ""
    · simp only [ht, ne_eq, not_true_eq_false, if_false, lt_self_iff_false] at h
      split at h
      · next p hp =>
        have hp' := sliceExpr_error _ _ _ _ hp
        simp only [Except.error.injEq] at h
        rw [hp'] at h
        exact absurd h (by simp)
      · exact absurd h (by simp)
    · simp only [ht, ne_eq, not_false_eq_true, if_true] at h
      cases hd : DecodeToken Token with
      | error err =>
        simp only [hd, Except.error.injEq, Failure.error.injEq] at h
        exact ⟨err, h.symm⟩
      | ok index =>
        simp only [hd] at h
        by_cases hneg : index < 0
        · simp only [hneg, if_true, Except.error.injEq, Failure.error.injEq] at h
          exact ⟨"token must be non-negative", by rw [← h]; decide⟩
        · simp only [hneg, if_false] at h
          split at h
          · next p hp =>
            have hp' := sliceExpr_error _ _ _ _ hp
            simp only [Except.error.injEq] at h
            rw [hp'] at h
            exact absurd h (by simp)
          · exact absurd h (by simp)

/-- C8. Invalid org ID is rejected first: when the text of the request's OrgID
is not a well-formed version-4 UUID, `GetAllFolders` and `GetFoldersWithPag`
both return no response and the error `invalid OrgID: must be valid UUID`,
whatever the sample, the page limit and the token are. -/
theorem invalid_org_rejected (sample : List Folder) (orgID : UUID) (PageLimit : Int)
    (Token : String) (h : IsValidUUID orgID.String = false) :
    GetAllFolders sample { OrgID := orgID } =
        .error (.error "invalid OrgID: must be valid UUID") ∧
      GetFoldersWithPag sample { OrgID := orgID, PageLimit := PageLimit, Token := Token } =
        .error (.error "invalid OrgID: must be valid UUID") := by
  constructor
  · simp only [GetAllFolders, h, Bool.not_false, if_true]
  · simp only [GetFoldersWithPag, h, Bool.not_false, if_true]

theorem invalid_org_rejected_witness :
    IsValidUUID UUID.Nil.String = false ∧
    GetAllFolders (sampleA 3) { OrgID := UUID.Nil } =
        .error (.error "invalid OrgID: must be valid UUID") ∧
      GetFoldersWithPag (sampleA 3) { OrgID := UUID.Nil, PageLimit := 10, Token := "" } =
        .error (.error "invalid OrgID: must be valid UUID") :=
  ⟨by decide, invalid_org_rejected (sampleA 3) UUID.Nil 10 "" (by decide)⟩

/-- C9. Page-limit bounds: for a request with a valid version-4 org ID,
`GetFoldersWithPag` returns no response and the error `invalid page limit` if
and only if `PageLimit ≤ 0` or `PageLimit ≥ 1000`, whatever the sample and the
token are; `dataSetSize` is 1000. -/
theorem page_limit_bounds (sample : List Folder) (req : FetchFolderRequestWithPag)
    (horg : IsValidUUID req.OrgID.String = true) :
    dataSetSize = 1000 ∧
    (GetFoldersWithPag sample req =
        .error (.error "invalid page limit: must be non-negative and below 1000 items") ↔
      (req.PageLimit ≤ 0 ∨ req.PageLimit ≥ 1000)) := by
  refine ⟨rfl, ?_⟩
  constructor
  · intro h
    by_contra hlim
    have hlim' : ¬ (req.PageLimit ≤ 0 ∨ req.PageLimit ≥ dataSetSize) := hlim
    simp only [GetFoldersWithPag, horg, Bool.not_true, Bool.false_eq_true, if_false,
      hlim'] at h
    split at h
    · next err herr =>
      simp only [Except.error.injEq] at h
      rw [h] at herr
      rcases fetch_error_shape _ _ _ _ _ herr with ⟨x, hx⟩ | ⟨x, hx⟩
      · exact append_ne_of_not_prefix _ x _ (by decide) hx.symm
      · exact append_ne_of_not_prefix _ x _ (by decide) hx.symm
    · split at h
      · simp only [Except.error.injEq, Failure.error.injEq] at h
        exact append_ne_of_not_prefix _ _ _ (by decide) h
      · exact absurd h (by simp)
  · intro hlim
    have hlim' : req.PageLimit ≤ 0 ∨ req.PageLimit ≥ dataSetSize := hlim
    simp only [GetFoldersWithPag, horg, Bool.not_true, Bool.false_eq_true, if_false,
      hlim', if_true]

theorem page_limit_bounds_witness :
    IsValidUUID orgA.String = true ∧
    dataSetSize = 1000 ∧
    (GetFoldersWithPag (sampleA 3) { OrgID := orgA, PageLimit := 1000, Token := "" } =
        .error (.error "invalid page limit: must be non-negative and below 1000 items") ↔
      ((1000 : Int) ≤ 0 ∨ (1000 : Int) ≥ 1000)) :=
  ⟨by decide,
    page_limit_bounds (sampleA 3) { OrgID := orgA, PageLimit := 1000, Token := "" } (by decide)⟩

/-- C10, the claim as it stands fails. The tokens made of a line feed, and of
the token of offset 2 with a line feed inside its padding, are not empty and are
not valid standard-base64 strings, and yet `DecodeToken` decodes them, to 0 and
to 2, and `GetFoldersWithPag` answers them with a page. -/
theorem malformed_token_counterexample :
    "\n" ≠ "" ∧ IsStdBase64 (bytesOfString "\n") = false ∧
    DecodeToken "\n" = .ok 0 ∧
    GetFoldersWithPag (sampleA 3) { OrgID := orgA, PageLimit := 10, Token := "\n" } =
      .ok { Folders := sampleA 3, NextToken := "", PrevToken := "" } ∧
    "Mg=\n=" ≠ "" ∧ IsStdBase64 (bytesOfString "Mg=\n=") = false ∧
    DecodeToken "Mg=\n=" = .ok 2 ∧
    GetFoldersWithPag (sampleA 3) { OrgID := orgA, PageLimit := 10, Token := "Mg=\n=" } =
      .ok { Folders := (sampleA 3).drop 2, NextToken := "", PrevToken := "MA==" } := by
  decide

/-- C10, amended. Malformed token is rejected: `DecodeToken` fails exactly on
the tokens that are not valid standard base64 once their carriage returns and
line feeds are left out (groups of four characters of the alphabet, the last
group ending in no, one or two `=`; the bits that the padding leaves unused are
not examined). Such a token is not empty, `DecodeToken` returns for it an
`invalid token format` error, and `GetFoldersWithPag`, called with a valid org ID
whose folders have valid identifiers and a page limit in 1..999, returns no
response and an error that begins with `invalid token`. A token that is a valid
standard-base64 string is never among them. -/
theorem malformed_token_rejected (sample : List Folder) (orgID : UUID) (PageLimit : Int)
    (Token : String)
    (horg : IsValidUUID orgID.String = true)
    (hvalid : ∀ f ∈ sample, f.OrgId = orgID → IsValidUUIDv4 f.Id.String = true)
    (hL : 1 ≤ PageLimit ∧ PageLimit ≤ 999) :
    ((∃ e, DecodeToken Token = .error e) ↔
      IsStdBase64 (dropNewlines (bytesOfString Token)) = false) ∧
    (IsStdBase64 (dropNewlines (bytesOfString Token)) = false →
      Token ≠ "" ∧ IsStdBase64 (bytesOfString Token) = false ∧
      ∃ e, DecodeToken Token = .error ("invalid token format: " ++ e) ∧
        GetFoldersWithPag sample { OrgID := orgID, PageLimit := PageLimit, Token := Token } =
          .error (.error ("invalid token: " ++ ("invalid token format: " ++ e)))) := by
  have hlim : ¬ (PageLimit ≤ 0 ∨ PageLimit ≥ dataSetSize) := by
    unfold dataSetSize
    omega
  constructor
  · rw [← DecodeString_error_iff]
    unfold DecodeToken
    cases DecodeString Token with
    | ok o => simp
    | error e => simp
  · intro hbad
    obtain ⟨e, he⟩ := (DecodeString_error_iff Token).mpr hbad
    have hdec : DecodeToken Token = .error ("invalid token format: " ++ e) := by
      simp only [DecodeToken, he]
    have ht : Token ≠ "" := by
      intro h
      subst h
      rw [DecodeToken_empty] at hdec
      exact absurd hdec (by simp)
    have hstd : IsStdBase64 (bytesOfString Token) = false := by
      cases hs : IsStdBase64 (bytesOfString Token) with
      | false => rfl
      | true =>
        rw [dropNewlines_of_std _ hs, hs] at hbad
        exact absurd hbad (by simp)
    refine ⟨ht, hstd, e, hdec, ?_⟩
    simp only [GetFoldersWithPag, horg, Bool.not_true, Bool.false_eq_true, if_false, hlim,
      fetch_bad_token sample orgID PageLimit Token _ hvalid hdec]

theorem malformed_token_rejected_witness :
    IsValidUUID orgA.String = true ∧
    (∀ f ∈ sampleA 3, f.OrgId = orgA → IsValidUUIDv4 f.Id.String = true) ∧
    ((1 : Int) ≤ 10 ∧ (10 : Int) ≤ 999) ∧
    IsStdBase64 (dropNewlines (bytesOfString "invalid_token")) = false ∧
    "invalid_token" ≠ "" ∧ IsStdBase64 (bytesOfString "invalid_token") = false ∧
    ∃ e, DecodeToken "invalid_token" = .error ("invalid token format: " ++ e) ∧
      GetFoldersWithPag (sampleA 3) { OrgID := orgA, PageLimit := 10, Token := "invalid_token" } =
        .error (.error ("invalid token: " ++ ("invalid token format: " ++ e))) :=
  ⟨by decide, by decide, by decide, by decide,
    (malformed_token_rejected (sampleA 3) orgA 10 "invalid_token"
      (by decide) (by decide) (by decide)).2 (by decide)⟩

theorem filtered_eq_nil (sample : List Folder) (orgID : UUID)
    (hnone : ∀ f ∈ sample, f.OrgId ≠ orgID) : filtered sample orgID = [] := by
  unfold filtered
  rw [List.filter_eq_nil_iff]
  intro f hf
  simpa using hnone f hf

theorem window_length {α : Type} (F : List α) (lo hi : Nat) :
    (window F lo hi).length = min (hi - lo) (F.length - lo) := by
  unfold window
  rw [List.length_take, List.length_drop]

/-- C6, as stated, fails: for an organisation without folders and the token
`invalid_token`, `GetFoldersWithPag` answers with the `invalid token` error, not
with `no folders found`: the token is decoded before the not-found check. -/
theorem not_found_before_token_counterexample :
    IsValidUUID orgB.String = true ∧
    (∀ f ∈ sampleA 3, f.OrgId ≠ orgB) ∧
    ((1 : Int) ≤ 10 ∧ (10 : Int) ≤ 999) ∧
    GetFoldersWithPag (sampleA 3) { OrgID := orgB, PageLimit := 10, Token := "invalid_token" } =
      .error (.error
        "invalid token: invalid token format: illegal base64 data at input byte 7") ∧
    GetFoldersWithPag (sampleA 3) { OrgID := orgB, PageLimit := 10, Token := "invalid_token" } ≠
      .error (.error ("no folders found for OrgID: " ++ orgB.String)) := by
  decide

/-- C6, amended. For a valid version-4 org ID that no folder of the sample has
as its OrgId, `GetAllFolders` fails with the error `no folders found for OrgID`;
`GetFoldersWithPag` does the same for every page limit in 1..999 when the token
is empty or decodes to the offset 0, and answers with an `invalid token` error
when the token does not decode or decodes to a negative offset, since the token
is read before the not-found check. -/
theorem not_found_for_org_without_folders (sample : List Folder) (orgID : UUID)
    (horg : IsValidUUID orgID.String = true)
    (hnone : ∀ f ∈ sample, f.OrgId ≠ orgID) :
    GetAllFolders sample { OrgID := orgID } =
        .error (.error ("no folders found for OrgID: " ++ orgID.String)) ∧
    ∀ (PageLimit : Int) (Token : String), 1 ≤ PageLimit ∧ PageLimit ≤ 999 →
      ((Token = "" ∨ DecodeToken Token = .ok 0) →
        GetFoldersWithPag sample { OrgID := orgID, PageLimit := PageLimit, Token := Token } =
          .error (.error ("no folders found for OrgID: " ++ orgID.String))) ∧
      (∀ e, DecodeToken Token = .error e →
        GetFoldersWithPag sample { OrgID := orgID, PageLimit := PageLimit, Token := Token } =
          .error (.error ("invalid token: " ++ e))) ∧
      (∀ n, DecodeToken Token = .ok n → n < 0 →
        GetFoldersWithPag sample { OrgID := orgID, PageLimit := PageLimit, Token := Token } =
          .error (.error "invalid token: token must be non-negative")) := by
  have hF := filtered_eq_nil sample orgID hnone
  have hvalid : ∀ (isValid : String → Bool), ∀ f ∈ sample, f.OrgId = orgID →
      isValid f.Id.String = true := fun _ f hf ho => absurd ho (hnone f hf)
  constructor
  · simp only [GetAllFolders, horg, Bool.not_true, Bool.false_eq_true, if_false,
      FetchAllFoldersByOrgID, filterLoop_ok IsValidUUID orgID sample [] (hvalid IsValidUUID),
      hF, List.append_nil, List.length_nil, if_true]
  · intro PageLimit Token hL
    have hlim : ¬ (PageLimit ≤ 0 ∨ PageLimit ≥ dataSetSize) := by
      unfold dataSetSize
      omega
    refine ⟨?_, ?_, ?_⟩
    · intro htok
      have hstart : Token = "" ∧ (0 : Int) = 0 ∨ Token ≠ "" ∧ DecodeToken Token = .ok 0 := by
        rcases htok with h | h
        · exact Or.inl ⟨h, rfl⟩
        · exact start_of_decode Token 0 h
      have h := fetch_ok sample orgID PageLimit Token 0 (hvalid IsValidUUIDv4) hL hstart
        (le_refl 0) (by omega) (by omega)
      rw [hF] at h
      have hw : ∀ a b, window ([] : List Folder) a b = [] := by
        intro a b
        simp [window]
      rw [hw] at h
      simp only [GetFoldersWithPag, horg, Bool.not_true, Bool.false_eq_true, if_false, hlim,
        h, List.length_nil, if_true]
    · intro e he
      simp only [GetFoldersWithPag, horg, Bool.not_true, Bool.false_eq_true, if_false, hlim,
        fetch_bad_token sample orgID PageLimit Token e (hvalid IsValidUUIDv4) he]
    · intro n hn hneg
      simp only [GetFoldersWithPag, horg, Bool.not_true, Bool.false_eq_true, if_false, hlim,
        fetch_negative_token sample orgID PageLimit Token n (hvalid IsValidUUIDv4) hn hneg]

theorem not_found_for_org_without_folders_witness :
    IsValidUUID orgB.String = true ∧
    (∀ f ∈ sampleA 3, f.OrgId ≠ orgB) ∧
    GetAllFolders (sampleA 3) { OrgID := orgB } =
        .error (.error ("no folders found for OrgID: " ++ orgB.String)) ∧
    ∀ (PageLimit : Int) (Token : String), 1 ≤ PageLimit ∧ PageLimit ≤ 999 →
      ((Token = "" ∨ DecodeToken Token = .ok 0) →
        GetFoldersWithPag (sampleA 3) { OrgID := orgB, PageLimit := PageLimit, Token := Token } =
          .error (.error ("no folders found for OrgID: " ++ orgB.String))) ∧
      (∀ e, DecodeToken Token = .error e →
        GetFoldersWithPag (sampleA 3) { OrgID := orgB, PageLimit := PageLimit, Token := Token } =
          .error (.error ("invalid token: " ++ e))) ∧
      (∀ n, DecodeToken Token = .ok n → n < 0 →
        GetFoldersWithPag (sampleA 3) { OrgID := orgB, PageLimit := PageLimit, Token := Token } =
          .error (.error "invalid token: token must be non-negative")) :=
  ⟨by decide, by decide,
    not_found_for_org_without_folders (sampleA 3) orgB (by decide) (by decide)⟩

/-- C7, as stated, fails: with three folders, all valid, a page limit of 10 and
the token of offset 3, which is the number of folders, `GetFoldersWithPag` fails
with the error `no folders found` although the organisation has folders. -/
theorem not_found_on_empty_page_counterexample :
    IsValidUUID orgA.String = true ∧
    (∃ f ∈ sampleA 3, f.OrgId = orgA) ∧
    (∀ f ∈ sampleA 3, f.OrgId = orgA → IsValidUUIDv4 f.Id.String = true) ∧
    ((1 : Int) ≤ 10 ∧ (10 : Int) ≤ 999) ∧
    DecodeToken (EncodeToken 3) = .ok 3 ∧
    GetFoldersWithPag (sampleA 3) { OrgID := orgA, PageLimit := 10, Token := EncodeToken 3 } =
      .error (.error ("no folders found for OrgID: " ++ orgA.String)) := by
  decide

/-- C7, amended. For a valid org ID with at least one folder, all of its folders
having valid identifiers, a page limit in 1..999 and a token that is empty
(offset 0) or decodes to the offset `start`: when `start` is below the number `S`
of folders of the organisation `GetFoldersWithPag` returns a response whose page
is the window `F[start : min(start + pageLimit, S)]`, which is not empty; when
`start = S` it fails with the error `no folders found`, because the not-found
check reads the page and not the filtered list. -/
theorem paginated_handler_result (sample : List Folder) (orgID : UUID) (PageLimit : Int)
    (Token : String) (start : Nat)
    (hlen : sample.length ≤ maxSliceLen)
    (horg : IsValidUUID orgID.String = true)
    (hmatch : ∃ f ∈ sample, f.OrgId = orgID)
    (hvalid : ∀ f ∈ sample, f.OrgId = orgID → IsValidUUIDv4 f.Id.String = true)
    (hL : 1 ≤ PageLimit ∧ PageLimit ≤ 999)
    (htok : Token = "" ∧ start = 0 ∨ Token ≠ "" ∧ DecodeToken Token = .ok (start : Int)) :
    (start < (filtered sample orgID).length →
      ∃ resp,
        GetFoldersWithPag sample { OrgID := orgID, PageLimit := PageLimit, Token := Token } =
          .ok resp ∧
        resp.Folders = window (filtered sample orgID) start
          (min (start + PageLimit.toNat) (filtered sample orgID).length) ∧
        resp.Folders ≠ []) ∧
    (start = (filtered sample orgID).length →
      GetFoldersWithPag sample { OrgID := orgID, PageLimit := PageLimit, Token := Token } =
        .error (.error ("no folders found for OrgID: " ++ orgID.String))) := by
  have hlim : ¬ (PageLimit ≤ 0 ∨ PageLimit ≥ dataSetSize) := by
    unfold dataSetSize
    omega
  have hpos : 0 < (filtered sample orgID).length := by
    obtain ⟨f, hf, ho⟩ := hmatch
    apply List.length_pos_of_mem (a := f)
    unfold filtered
    rw [List.mem_filter]
    exact ⟨hf, by simpa using ho⟩
  constructor
  · intro hlt
    obtain ⟨next, prev, h⟩ : ∃ next prev,
        FetchAllFoldersByOrgIDsInPag sample orgID PageLimit Token =
          .ok (window (filtered sample orgID) start
            (min (start + PageLimit.toNat) (filtered sample orgID).length), next, prev) :=
      ⟨_, _, fetch_ok_nat sample orgID PageLimit Token start hlen hvalid hL htok (by omega)⟩
    have hwl := window_length (filtered sample orgID) start
      (min (start + PageLimit.toNat) (filtered sample orgID).length)
    have hne : (window (filtered sample orgID) start
        (min (start + PageLimit.toNat) (filtered sample orgID).length)).length ≠ 0 := by
      omega
    refine ⟨FetchFolderResponseWithPag.mk (window (filtered sample orgID) start
        (min (start + PageLimit.toNat) (filtered sample orgID).length)) next prev, ?_, rfl, ?_⟩
    · simp only [GetFoldersWithPag, horg, Bool.not_true, Bool.false_eq_true, if_false, hlim,
        h, hne]
    · intro hnil
      apply hne
      simpa using congrArg List.length hnil
  · intro heq
    have hstart : Token = "" ∧ ((filtered sample orgID).length : Int) = 0 ∨
        Token ≠ "" ∧ DecodeToken Token = .ok ((filtered sample orgID).length : Int) := by
      rcases htok with ⟨h1, h2⟩ | ⟨h1, h2⟩
      · exact Or.inl ⟨h1, by omega⟩
      · exact Or.inr ⟨h1, by rw [← heq]; exact h2⟩
    obtain ⟨prev, h⟩ := fetch_at_end sample orgID PageLimit Token hlen hvalid hL hstart
    simp only [GetFoldersWithPag, horg, Bool.not_true, Bool.false_eq_true, if_false, hlim,
      h, List.length_nil, if_true]

theorem paginated_handler_result_witness :
    (sampleA 3).length ≤ maxSliceLen ∧
    IsValidUUID orgA.String = true ∧
    (∃ f ∈ sampleA 3, f.OrgId = orgA) ∧
    (∀ f ∈ sampleA 3, f.OrgId = orgA → IsValidUUIDv4 f.Id.String = true) ∧
    ((1 : Int) ≤ 2 ∧ (2 : Int) ≤ 999) ∧
    DecodeToken (EncodeToken 1) = .ok ((1 : Nat) : Int) ∧
    ((1 < (filtered (sampleA 3) orgA).length →
      ∃ resp,
        GetFoldersWithPag (sampleA 3) { OrgID := orgA, PageLimit := 2, Token := EncodeToken 1 } =
          .ok resp ∧
        resp.Folders = window (filtered (sampleA 3) orgA) 1
          (min (1 + (2 : Int).toNat) (filtered (sampleA 3) orgA).length) ∧
        resp.Folders ≠ []) ∧
    (1 = (filtered (sampleA 3) orgA).length →
      GetFoldersWithPag (sampleA 3) { OrgID := orgA, PageLimit := 2, Token := EncodeToken 1 } =
        .error (.error ("no folders found for OrgID: " ++ orgA.String)))) :=
  ⟨by decide, by decide, by decide, by decide, by decide, by decide,
    paginated_handler_result (sampleA 3) orgA 2 (EncodeToken 1) 1 (by decide) (by decide)
      (by decide) (by decide) (by decide) (Or.inr ⟨by decide, by decide⟩)⟩

/-! ## Negative offsets, the filter, and the invariant of the responses -/

/-- C11. Negative offset is rejected by the engine, not by the codec: for every
negative `int` `n`, `DecodeToken(EncodeToken(n))` returns `n` with a nil error,
and `FetchAllFoldersByOrgIDsInPag` called with the token `EncodeToken(n)`, the
folders of the organisation being valid and the page limit being any integer,
fails with the error `invalid token: token must be non-negative` (no page and
no token come with an error). -/
theorem negative_offset_rejected (sample : List Folder) (orgID : UUID) (PageLimit : Int)
    (n : Int) (hmin : minInt ≤ n) (hneg : n < 0)
    (hvalid : ∀ f ∈ sample, f.OrgId = orgID → IsValidUUIDv4 f.Id.String = true) :
    DecodeToken (EncodeToken n) = .ok n ∧
    FetchAllFoldersByOrgIDsInPag sample orgID PageLimit (EncodeToken n) =
      .error (.error "invalid token: token must be non-negative") := by
  have hdec : DecodeToken (EncodeToken n) = .ok n :=
    DecodeToken_EncodeToken_int n hmin (by unfold maxInt; omega)
  exact ⟨hdec, fetch_negative_token sample orgID PageLimit (EncodeToken n) n hvalid hdec hneg⟩

theorem negative_offset_rejected_witness :
    minInt ≤ (-5 : Int) ∧ (-5 : Int) < 0 ∧
    (∀ f ∈ sampleA 3, f.OrgId = orgA → IsValidUUIDv4 f.Id.String = true) ∧
    DecodeToken (EncodeToken (-5)) = .ok (-5) ∧
    FetchAllFoldersByOrgIDsInPag (sampleA 3) orgA 10 (EncodeToken (-5)) =
      .error (.error "invalid token: token must be non-negative") :=
  ⟨by decide, by decide, by decide,
    negative_offset_rejected (sampleA 3) orgA 10 (-5) (by decide) (by decide) (by decide)⟩

theorem mem_filtered (sample : List Folder) (orgID : UUID) (f : Folder) :
    f ∈ filtered sample orgID ↔ f ∈ sample ∧ f.OrgId = orgID := by
  unfold filtered
  rw [List.mem_filter]
  simp

/-- C12. Filter correctness: when every folder of the sample with the requested
OrgId has a valid version-4 Id, `FetchAllFoldersByOrgID` returns, with a nil
error, exactly the folders whose OrgId is the requested one, in their order in
the sample: a sub-list of the sample that holds a folder if and only if the
sample holds it with that OrgId, and the empty list when none matches. -/
theorem filter_correct (sample : List Folder) (orgID : UUID)
    (hvalid : ∀ f ∈ sample, f.OrgId = orgID → IsValidUUID f.Id.String = true) :
    FetchAllFoldersByOrgID sample orgID
        = .ok (sample.filter fun f => decide (f.OrgId = orgID)) ∧
    (sample.filter fun f => decide (f.OrgId = orgID)).Sublist sample ∧
    (∀ f, f ∈ (sample.filter fun f => decide (f.OrgId = orgID))
      ↔ f ∈ sample ∧ f.OrgId = orgID) ∧
    ((∀ f ∈ sample, f.OrgId ≠ orgID) → FetchAllFoldersByOrgID sample orgID = .ok []) := by
  have h : FetchAllFoldersByOrgID sample orgID = .ok (filtered sample orgID) := by
    unfold FetchAllFoldersByOrgID
    rw [filterLoop_ok IsValidUUID orgID sample [] hvalid, List.nil_append]
  refine ⟨h, List.filter_sublist _, fun f => mem_filtered sample orgID f, ?_⟩
  intro hnone
  rw [h]
  congr 1
  unfold filtered
  rw [List.filter_eq_nil_iff]
  intro f hf
  simpa using hnone f hf

theorem filter_correct_witness :
    (∀ f ∈ sampleA 3 ++ [folderNil], f.OrgId = orgA → IsValidUUID f.Id.String = true) ∧
    FetchAllFoldersByOrgID (sampleA 3 ++ [folderNil]) orgA
        = .ok ((sampleA 3 ++ [folderNil]).filter fun f => decide (f.OrgId = orgA)) ∧
    ((sampleA 3 ++ [folderNil]).filter fun f => decide (f.OrgId = orgA)).Sublist
      (sampleA 3 ++ [folderNil]) ∧
    (∀ f, f ∈ ((sampleA 3 ++ [folderNil]).filter fun f => decide (f.OrgId = orgA))
      ↔ f ∈ sampleA 3 ++ [folderNil] ∧ f.OrgId = orgA) ∧
    ((∀ f ∈ sampleA 3 ++ [folderNil], f.OrgId ≠ orgA) →
      FetchAllFoldersByOrgID (sampleA 3 ++ [folderNil]) orgA = .ok []) :=
  ⟨by decide, filter_correct (sampleA 3 ++ [folderNil]) orgA (by decide)⟩

/-- The two validators are the same function. -/
theorem IsValidUUIDv4_eq (s : String) : IsValidUUIDv4 s = IsValidUUID s := rfl

/-- The loop fails when some folder of the organisation has an identifier that
is not valid, whatever the validator. -/
theorem filterLoop_of_invalid (isValid : String → Bool) (orgID : UUID) (sample : List Folder)
    (hbad : ∃ f ∈ sample, f.OrgId = orgID ∧ isValid f.Id.String = false) :
    ∃ pre f post, sample = pre ++ f :: post ∧
      (∀ g ∈ pre, g.OrgId = orgID → isValid g.Id.String = true) ∧
      f.OrgId = orgID ∧ isValid f.Id.String = false ∧
      filterLoop isValid orgID sample [] =
        .error (.error ("folder with non-valid ID found for OrgID: " ++ orgID.String
          ++ " on folder named " ++ f.Name)) := by
  cases hr : filterLoop isValid orgID sample [] with
  | ok r =>
    obtain ⟨f, hf, ho, hv⟩ := hbad
    have := (filterLoop_inv isValid orgID sample [] r hr).2 f hf ho
    rw [hv] at this
    exact absurd this (by simp)
  | error e =>
    obtain ⟨pre, f, post, h1, h2, h3, h4, h5⟩ := filterLoop_error isValid orgID sample [] e hr
    exact ⟨pre, f, post, h1, h2, h3, h4, by rw [h5]⟩

/-- The first folder of the organisation with an invalid identifier is determined
by the sample. -/
theorem first_invalid_unique (isValid : String → Bool) (orgID : UUID)
    (pre pre' post post' : List Folder) (f f' : Folder)
    (h : pre ++ f :: post = pre' ++ f' :: post')
    (hpre : ∀ g ∈ pre, g.OrgId = orgID → isValid g.Id.String = true)
    (hpre' : ∀ g ∈ pre', g.OrgId = orgID → isValid g.Id.String = true)
    (hf : f.OrgId = orgID ∧ isValid f.Id.String = false)
    (hf' : f'.OrgId = orgID ∧ isValid f'.Id.String = false) : f = f' := by
  induction pre generalizing pre' with
  | nil =>
    cases pre' with
    | nil =>
      simp only [List.nil_append, List.cons.injEq] at h
      exact h.1
    | cons g pre' =>
      simp only [List.nil_append, List.cons_append, List.cons.injEq] at h
      have := hpre' g (List.mem_cons_self g pre') (h.1 ▸ hf.1)
      rw [← h.1, hf.2] at this
      exact absurd this (by simp)
  | cons g pre ih =>
    cases pre' with
    | nil =>
      simp only [List.nil_append, List.cons_append, List.cons.injEq] at h
      have := hpre g (List.mem_cons_self g pre) (h.1 ▸ hf'.1)
      rw [h.1, hf'.2] at this
      exact absurd this (by simp)
    | cons g' pre' =>
      simp only [List.cons_append, List.cons.injEq] at h
      exact ih pre' h.2 (fun x hx => hpre x (List.mem_cons_of_mem g hx))
        (fun x hx => hpre' x (List.mem_cons_of_mem g' hx))

/-- C13, as stated, fails for the handlers: with a folder of `orgA` whose
identifier is not valid, `GetFoldersWithPag` called with the page limit 0 answers
`invalid page limit`, and with a folder of the organisation `uuid.Nil` whose
identifier is not valid, `GetAllFolders` called for `uuid.Nil` answers
`invalid OrgID`; neither returns the error about the folder, which the two fetch
functions do return. -/
theorem invalid_folder_handlers_counterexample :
    (badFolderA ∈ [badFolderA] ∧ badFolderA.OrgId = orgA ∧
      IsValidUUID badFolderA.Id.String = false) ∧
    FetchAllFoldersByOrgIDsInPag [badFolderA] orgA 0 "" =
      .error (.error ("folder with non-valid ID found for OrgID: " ++ orgA.String
        ++ " on folder named " ++ badFolderA.Name)) ∧
    GetFoldersWithPag [badFolderA] { OrgID := orgA, PageLimit := 0, Token := "" } =
      .error (.error "invalid page limit: must be non-negative and below 1000 items") ∧
    FetchAllFoldersByOrgID [badFolderNil] UUID.Nil =
      .error (.error ("folder with non-valid ID found for OrgID: " ++ UUID.Nil.String
        ++ " on folder named " ++ badFolderNil.Name)) ∧
    GetAllFolders [badFolderNil] { OrgID := UUID.Nil } =
      .error (.error "invalid OrgID: must be valid UUID") := by
  decide

/-- C13, amended. If at least one folder with the requested OrgId has an Id that
is not a valid version-4 UUID, then `FetchAllFoldersByOrgID` and
`FetchAllFoldersByOrgIDsInPag`, for any page limit and any token, return no
folders and the error `folder with non-valid ID found for OrgID` that names the
requested org ID and the first such folder of the sample, even when other
folders of the organisation are valid; and when the org ID is itself a valid
version-4 UUID, `GetAllFolders` returns that error with no response, and so does
`GetFoldersWithPag` for every page limit in 1..999 and every token. -/
theorem invalid_folder_rejected (sample : List Folder) (orgID : UUID)
    (hbad : ∃ f ∈ sample, f.OrgId = orgID ∧ IsValidUUID f.Id.String = false) :
    ∃ pre f post, sample = pre ++ f :: post ∧
      (∀ g ∈ pre, g.OrgId = orgID → IsValidUUID g.Id.String = true) ∧
      f.OrgId = orgID ∧ IsValidUUID f.Id.String = false ∧
      FetchAllFoldersByOrgID sample orgID =
        .error (.error ("folder with non-valid ID found for OrgID: " ++ orgID.String
          ++ " on folder named " ++ f.Name)) ∧
      (∀ (PageLimit : Int) (Token : String),
        FetchAllFoldersByOrgIDsInPag sample orgID PageLimit Token =
          .error (.error ("folder with non-valid ID found for OrgID: " ++ orgID.String
            ++ " on folder named " ++ f.Name))) ∧
      (IsValidUUID orgID.String = true →
        GetAllFolders sample { OrgID := orgID } =
          .error (.error ("folder with non-valid ID found for OrgID: " ++ orgID.String
            ++ " on folder named " ++ f.Name)) ∧
        ∀ (PageLimit : Int) (Token : String), 1 ≤ PageLimit ∧ PageLimit ≤ 999 →
          GetFoldersWithPag sample { OrgID := orgID, PageLimit := PageLimit, Token := Token } =
            .error (.error ("folder with non-valid ID found for OrgID: " ++ orgID.String
              ++ " on folder named " ++ f.Name))) := by
  obtain ⟨pre, f, post, h1, h2, h3, h4, h5⟩ := filterLoop_of_invalid IsValidUUID orgID sample hbad
  have h5' : filterLoop IsValidUUIDv4 orgID sample [] =
      .error (.error ("folder with non-valid ID found for OrgID: " ++ orgID.String
        ++ " on folder named " ++ f.Name)) := h5
  have hpag : ∀ (PageLimit : Int) (Token : String),
      FetchAllFoldersByOrgIDsInPag sample orgID PageLimit Token =
        .error (.error ("folder with non-valid ID found for OrgID: " ++ orgID.String
          ++ " on folder named " ++ f.Name)) := by
    intro PageLimit Token
    simp only [FetchAllFoldersByOrgIDsInPag, h5']
  refine ⟨pre, f, post, h1, h2, h3, h4, h5, hpag, ?_⟩
  intro horg
  constructor
  · simp only [GetAllFolders, horg, Bool.not_true, Bool.false_eq_true, if_false,
      FetchAllFoldersByOrgID, h5]
  · intro PageLimit Token hL
    have hlim : ¬ (PageLimit ≤ 0 ∨ PageLimit ≥ dataSetSize) := by
      unfold dataSetSize
      omega
    simp only [GetFoldersWithPag, horg, Bool.not_true, Bool.false_eq_true, if_false, hlim,
      hpag]

theorem invalid_folder_rejected_witness :
    (∃ f ∈ sampleA 2 ++ badFolderA :: sampleA 1, f.OrgId = orgA ∧
      IsValidUUID f.Id.String = false) ∧
    ∃ pre f post, sampleA 2 ++ badFolderA :: sampleA 1 = pre ++ f :: post ∧
      (∀ g ∈ pre, g.OrgId = orgA → IsValidUUID g.Id.String = true) ∧
      f.OrgId = orgA ∧ IsValidUUID f.Id.String = false ∧
      FetchAllFoldersByOrgID (sampleA 2 ++ badFolderA :: sampleA 1) orgA =
        .error (.error ("folder with non-valid ID found for OrgID: " ++ orgA.String
          ++ " on folder named " ++ f.Name)) ∧
      (∀ (PageLimit : Int) (Token : String),
        FetchAllFoldersByOrgIDsInPag (sampleA 2 ++ badFolderA :: sampleA 1) orgA PageLimit
            Token =
          .error (.error ("folder with non-valid ID found for OrgID: " ++ orgA.String
            ++ " on folder named " ++ f.Name))) ∧
      (IsValidUUID orgA.String = true →
        GetAllFolders (sampleA 2 ++ badFolderA :: sampleA 1) { OrgID := orgA } =
          .error (.error ("folder with non-valid ID found for OrgID: " ++ orgA.String
            ++ " on folder named " ++ f.Name)) ∧
        ∀ (PageLimit : Int) (Token : String), 1 ≤ PageLimit ∧ PageLimit ≤ 999 →
          GetFoldersWithPag (sampleA 2 ++ badFolderA :: sampleA 1)
              { OrgID := orgA, PageLimit := PageLimit, Token := Token } =
            .error (.error ("folder with non-valid ID found for OrgID: " ++ orgA.String
              ++ " on folder named " ++ f.Name))) :=
  ⟨⟨badFolderA, by decide, by decide, by decide⟩,
    invalid_folder_rejected (sampleA 2 ++ badFolderA :: sampleA 1) orgA
      ⟨badFolderA, by decide, by decide, by decide⟩⟩

/-- A call of the engine that returns has read an offset from its token. -/
theorem fetch_ok_start (sample : List Folder) (orgID : UUID) (L : Int) (Token : String)
    (r : List Folder × String × String)
    (h : FetchAllFoldersByOrgIDsInPag sample orgID L Token = .ok r) :
    ∃ start : Int, Token = "" ∧ start = 0 ∨ Token ≠ "" ∧ DecodeToken Token = .ok start := by
  by_cases ht : Token = ""
  · exact ⟨0, Or.inl ⟨ht, rfl⟩⟩
  · cases hd : DecodeToken Token with
    | ok start => exact ⟨start, Or.inr ⟨ht, rfl⟩⟩
    | error e =>
      unfold FetchAllFoldersByOrgIDsInPag at h
      split at h
      · exact absurd h (by simp)
      · simp only [ht, ne_eq, not_false_eq_true, if_true, hd] at h
        exact absurd h (by simp)

/-- What a response of the paginated handler tells about the request. -/
theorem getFoldersWithPag_ok_inv (sample : List Folder) (req : FetchFolderRequestWithPag)
    (resp : FetchFolderResponseWithPag) (h : GetFoldersWithPag sample req = .ok resp) :
    IsValidUUID req.OrgID.String = true ∧ (1 ≤ req.PageLimit ∧ req.PageLimit ≤ 999) ∧
      FetchAllFoldersByOrgIDsInPag sample req.OrgID req.PageLimit req.Token =
        .ok (resp.Folders, resp.NextToken, resp.PrevToken) ∧
      resp.Folders ≠ [] := by
  unfold GetFoldersWithPag at h
  by_cases horg : IsValidUUID req.OrgID.String = true
  · simp only [horg, Bool.not_true, Bool.false_eq_true, if_false] at h
    by_cases hlim : req.PageLimit ≤ 0 ∨ req.PageLimit ≥ dataSetSize
    · simp only [hlim, if_true] at h
      exact absurd h (by simp)
    · simp only [hlim, if_false] at h
      have hL : 1 ≤ req.PageLimit ∧ req.PageLimit ≤ 999 := by
        unfold dataSetSize at hlim
        omega
      cases hf : FetchAllFoldersByOrgIDsInPag sample req.OrgID req.PageLimit req.Token with
      | error e =>
        simp only [hf] at h
        exact absurd h (by simp)
      | ok r =>
        obtain ⟨folders, nextToken, prevToken⟩ := r
        simp only [hf] at h
        by_cases hz : folders.length = 0
        · simp only [hz, if_true] at h
          exact absurd h (by simp)
        · simp only [hz, if_false, Except.ok.injEq] at h
          subst h
          refine ⟨horg, hL, rfl, ?_⟩
          intro hnil
          exact hz (congrArg List.length hnil)
  · have horg' : IsValidUUID req.OrgID.String = false := by simpa using horg
    simp only [horg', Bool.not_false, if_true] at h
    exact absurd h (by simp)

theorem mem_of_mem_window {α : Type} (F : List α) (lo hi : Nat) (x : α)
    (h : x ∈ window F lo hi) : x ∈ F :=
  List.mem_of_mem_drop (List.mem_of_mem_take h)

/-- C14. Response invariant: whenever `GetAllFolders` or `GetFoldersWithPag`
returns a response, the OrgID of the request is a valid version-4 UUID and every
folder of the response has that OrgId and an Id that is a valid version-4 UUID. -/
theorem response_invariant (sample : List Folder) (orgID : UUID) (folders : List Folder)
    (h : GetAllFolders sample { OrgID := orgID } = .ok { Folders := folders } ∨
      ∃ (PageLimit : Int) (Token next prev : String),
        GetFoldersWithPag sample { OrgID := orgID, PageLimit := PageLimit, Token := Token } =
          .ok { Folders := folders, NextToken := next, PrevToken := prev }) :
    IsValidUUID orgID.String = true ∧
      ∀ f ∈ folders, f.OrgId = orgID ∧ IsValidUUID f.Id.String = true := by
  rcases h with h | ⟨PageLimit, Token, next, prev, h⟩
  · unfold GetAllFolders at h
    by_cases horg : IsValidUUID orgID.String = true
    · refine ⟨horg, ?_⟩
      simp only [horg, Bool.not_true, Bool.false_eq_true, if_false] at h
      cases hf : FetchAllFoldersByOrgID sample orgID with
      | error e =>
        simp only [hf] at h
        exact absurd h (by simp)
      | ok r =>
        simp only [hf] at h
        by_cases hz : r.length = 0
        · simp only [hz, if_true] at h
          exact absurd h (by simp)
        · simp only [hz, if_false, Except.ok.injEq, FetchFolderResponse.mk.injEq] at h
          subst h
          obtain ⟨h1, h2⟩ := filterLoop_inv IsValidUUID orgID sample [] r hf
          rw [List.nil_append] at h1
          intro f hfm
          rw [h1, mem_filtered] at hfm
          exact ⟨hfm.2, h2 f hfm.1 hfm.2⟩
    · have horg' : IsValidUUID orgID.String = false := by simpa using horg
      simp only [horg', Bool.not_false, if_true] at h
      exact absurd h (by simp)
  · obtain ⟨horg, hL, hf, _⟩ := getFoldersWithPag_ok_inv sample _ _ h
    refine ⟨horg, ?_⟩
    obtain ⟨start, hstart⟩ := fetch_ok_start sample orgID PageLimit Token _ hf
    obtain ⟨hvalid, _, _, _, hpage, _, _⟩ :=
      fetch_ok_inv sample orgID PageLimit Token start folders next prev hL hstart hf
    intro f hfm
    rw [hpage] at hfm
    have hm := mem_of_mem_window _ _ _ f hfm
    rw [mem_filtered] at hm
    exact ⟨hm.2, hvalid f hm.1 hm.2⟩

theorem response_invariant_witness :
    (GetAllFolders (sampleA 3 ++ [folderNil]) { OrgID := orgA } = .ok { Folders := sampleA 3 } ∨
      ∃ (PageLimit : Int) (Token next prev : String),
        GetFoldersWithPag (sampleA 3 ++ [folderNil])
            { OrgID := orgA, PageLimit := PageLimit, Token := Token } =
          .ok { Folders := sampleA 3, NextToken := next, PrevToken := prev }) ∧
    IsValidUUID orgA.String = true ∧
      ∀ f ∈ sampleA 3, f.OrgId = orgA ∧ IsValidUUID f.Id.String = true :=
  ⟨Or.inl (by decide),
    response_invariant (sampleA 3 ++ [folderNil]) orgA (sampleA 3) (Or.inl (by decide))⟩

/-! ## The assertions of the test on the tokens of a response -/

theorem encodeBytes_ne_nil (bs : List Nat) (h : bs ≠ []) : encodeBytes bs ≠ [] := by
  match bs, h with
  | [_], _ => simp [encodeBytes]
  | [_, _], _ => simp [encodeBytes]
  | _ :: _ :: _ :: _, _ => simp [encodeBytes]

/-- A token made by `EncodeToken` is never the empty string. -/
theorem EncodeToken_ne_empty (n : Int) : EncodeToken n ≠ "" := by
  have hI : Itoa n ≠ [] := by
    unfold Itoa
    split
    · exact List.cons_ne_nil _ _
    · exact formatBits_ne_nil 65 n.natAbs [] (Or.inl (by decide))
  have hE := encodeBytes_ne_nil (Itoa n) hI
  unfold EncodeToken EncodeToString
  intro h
  have hd := congrArg String.data h
  simp only [List.map_eq_nil_iff] at hd
  exact hE hd

/-- C16, as stated, fails: with ten folders and a page limit of 10 the first
page is full, and it is also the last one, so its next token is empty. -/
theorem full_page_next_token_counterexample :
    GetFoldersWithPag (sampleA 10) { OrgID := orgA, PageLimit := 10, Token := "" } =
      .ok { Folders := sampleA 10, NextToken := "", PrevToken := "" } ∧
    ((sampleA 10).length : Int) = 10 := by
  decide

/-- C16, amended. For every response of `GetFoldersWithPag`, with `start` the
offset of the token of the request and `S` the number of folders of the
organisation: the next token is not empty if and only if
`start + PageLimit < S`. So a full page has a next token when it stops before
the end of the folders, and a full page that ends exactly at the end
(`start + PageLimit = S`) has an empty next token. -/
theorem full_page_next_token (sample : List Folder) (req : FetchFolderRequestWithPag)
    (resp : FetchFolderResponseWithPag) (start : Int)
    (hok : GetFoldersWithPag sample req = .ok resp)
    (hstart : req.Token = "" ∧ start = 0 ∨
      req.Token ≠ "" ∧ DecodeToken req.Token = .ok start) :
    (resp.NextToken ≠ "" ↔
      start + req.PageLimit < ((filtered sample req.OrgID).length : Int)) ∧
    (((resp.Folders.length : Int) = req.PageLimit ∧
        start + req.PageLimit < ((filtered sample req.OrgID).length : Int)) →
      resp.NextToken ≠ "") ∧
    (start + req.PageLimit = ((filtered sample req.OrgID).length : Int) →
      (resp.Folders.length : Int) = req.PageLimit ∧ resp.NextToken = "") := by
  obtain ⟨_, hL, hf, _⟩ := getFoldersWithPag_ok_inv sample req resp hok
  obtain ⟨_, h0, hle, _, hpage, hnext, _⟩ :=
    fetch_ok_inv sample req.OrgID req.PageLimit req.Token start _ _ _ hL hstart hf
  have hiff : resp.NextToken ≠ "" ↔
      start + req.PageLimit < ((filtered sample req.OrgID).length : Int) := by
    rw [hnext]
    constructor
    · intro hne
      by_contra hlt
      apply hne
      rw [if_neg]
      intro hmin
      apply hlt
      have := min_le_left (start + req.PageLimit) ((filtered sample req.OrgID).length : Int)
      rcases min_choice (start + req.PageLimit) ((filtered sample req.OrgID).length : Int)
        with hc | hc
      · rw [hc] at hmin
        exact hmin
      · rw [hc] at hmin
        exact absurd hmin (lt_irrefl _)
    · intro hlt
      rw [if_pos (by rw [min_eq_left (le_of_lt hlt)]; exact hlt)]
      exact EncodeToken_ne_empty _
  refine ⟨hiff, fun h => hiff.mpr h.2, ?_⟩
  intro heq
  constructor
  · rw [hpage, window_length]
    rw [min_eq_right (by omega)]
    omega
  · by_contra hne
    have := hiff.mp hne
    omega

theorem full_page_next_token_witness :
    GetFoldersWithPag (sampleA 25) { OrgID := orgA, PageLimit := 10, Token := "" } =
      .ok { Folders := (sampleA 25).take 10, NextToken := "MTA=", PrevToken := "" } ∧
    (("MTA=" ≠ "" ↔ (0 : Int) + 10 < ((filtered (sampleA 25) orgA).length : Int)) ∧
    (((((sampleA 25).take 10).length : Int) = 10 ∧
        (0 : Int) + 10 < ((filtered (sampleA 25) orgA).length : Int)) →
      "MTA=" ≠ "") ∧
    ((0 : Int) + 10 = ((filtered (sampleA 25) orgA).length : Int) →
      ((((sampleA 25).take 10).length : Int) = 10 ∧ "MTA=" = ""))) :=
  ⟨by decide,
    full_page_next_token (sampleA 25) { OrgID := orgA, PageLimit := 10, Token := "" }
      { Folders := (sampleA 25).take 10, NextToken := "MTA=", PrevToken := "" } 0
      (by decide) (Or.inl ⟨rfl, rfl⟩)⟩

/-- C17, as stated, fails: the token `EncodeToken(0)` is not empty, the request
succeeds, and the previous token of the response is empty. -/
theorem nonempty_token_prev_token_counterexample :
    EncodeToken 0 ≠ "" ∧
    GetFoldersWithPag (sampleA 3) { OrgID := orgA, PageLimit := 10, Token := EncodeToken 0 } =
      .ok { Folders := sampleA 3, NextToken := "", PrevToken := "" } := by
  decide

/-- C17, amended. For every response of `GetFoldersWithPag` to a request whose
token is not empty and decodes to the offset `start`: the previous token is not
empty if and only if `start > 0`; a token that is not empty and decodes to 0
gives an empty previous token. -/
theorem nonempty_token_prev_token (sample : List Folder) (req : FetchFolderRequestWithPag)
    (resp : FetchFolderResponseWithPag) (start : Int)
    (hok : GetFoldersWithPag sample req = .ok resp)
    (hne : req.Token ≠ "") (hdec : DecodeToken req.Token = .ok start) :
    (resp.PrevToken ≠ "" ↔ start > 0) ∧ (start = 0 → resp.PrevToken = "") := by
  obtain ⟨_, hL, hf, _⟩ := getFoldersWithPag_ok_inv sample req resp hok
  obtain ⟨_, h0, _, _, _, _, hprev⟩ :=
    fetch_ok_inv sample req.OrgID req.PageLimit req.Token start _ _ _ hL
      (Or.inr ⟨hne, hdec⟩) hf
  constructor
  · constructor
    · intro h
      by_contra hgt
      apply h
      rw [hprev, if_neg hgt]
    · intro hgt
      rw [hprev, if_pos hgt]
      exact EncodeToken_ne_empty _
  · intro hz
    rw [hprev, if_neg (by omega)]

theorem nonempty_token_prev_token_witness :
    GetFoldersWithPag (sampleA 25) { OrgID := orgA, PageLimit := 10, Token := "Mg==" } =
      .ok { Folders := ((sampleA 25).drop 2).take 10, NextToken := "MTI=", PrevToken := "MA==" } ∧
    "Mg==" ≠ "" ∧ DecodeToken "Mg==" = .ok 2 ∧
    (("MA==" ≠ "" ↔ (2 : Int) > 0) ∧ ((2 : Int) = 0 → "MA==" = "")) :=
  ⟨by decide, by decide, by decide,
    nonempty_token_prev_token (sampleA 25) { OrgID := orgA, PageLimit := 10, Token := "Mg==" }
      { Folders := ((sampleA 25).drop 2).take 10, NextToken := "MTI=", PrevToken := "MA==" } 2
      (by decide) (by decide) (by decide)⟩

/-! ## The UUID validator -/

theorem matchItems_eq_matchClasses (items : List RegexItem) :
    ∀ text, matchItems items text = matchClasses (classesOf items) text := by
  induction items with
  | nil => intro text; rfl
  | cons item items ih =>
    intro text
    have key : ∀ (n : Nat) (text : List Char),
        (match matchRepeat item.ranges n text with
          | none => false
          | some rest => matchItems items rest) =
        matchClasses (List.replicate n item.ranges ++ classesOf items) text := by
      intro n
      induction n with
      | zero =>
        intro text
        simp only [matchRepeat, List.replicate_zero, List.nil_append]
        exact ih text
      | succ n ihn =>
        intro text
        cases text with
        | nil => simp [matchRepeat, matchClasses, List.replicate_succ]
        | cons c text =>
          by_cases hc : inClass item.ranges c = true
          · simp only [matchRepeat, hc, if_true, List.replicate_succ, List.cons_append,
              matchClasses, Bool.true_and]
            exact ihn text
          · have hc' : inClass item.ranges c = false := by simpa using hc
            simp [matchRepeat, hc', List.replicate_succ, matchClasses]
    have := key item.count text
    simp only [matchItems, classesOf, List.flatMap_cons] at this ⊢
    exact this

theorem matchClasses_iff (classes : List (List (Char × Char))) :
    ∀ text, matchClasses classes text = true ↔
      text.length = classes.length ∧
        ∀ (i : Nat) (c : Char), text[i]? = some c → inClass (classes.getD i []) c = true := by
  induction classes with
  | nil =>
    intro text
    cases text with
    | nil => simp [matchClasses]
    | cons c text => simp [matchClasses]
  | cons cls classes ih =>
    intro text
    cases text with
    | nil => simp [matchClasses]
    | cons c text =>
      simp only [matchClasses, Bool.and_eq_true, ih text, List.length_cons,
        Nat.add_right_cancel_iff]
      constructor
      · rintro ⟨h0, hl, hr⟩
        refine ⟨hl, ?_⟩
        intro i x hx
        cases i with
        | zero =>
          simp only [List.getElem?_cons_zero, Option.some.injEq] at hx
          subst hx
          simpa using h0
        | succ i =>
          simp only [List.getElem?_cons_succ] at hx
          simpa using hr i x hx
      · rintro ⟨hl, hr⟩
        refine ⟨?_, hl, ?_⟩
        · simpa using hr 0 c (by simp)
        · intro i x hx
          simpa using hr (i + 1) x (by simpa using hx)

theorem inClass_single (a c : Char) : inClass [(a, a)] c = (c == a) := by
  simp only [inClass, List.any_cons, List.any_nil, Bool.or_false]
  rw [Bool.eq_iff_iff]
  simp only [Bool.and_eq_true, decide_eq_true_eq, beq_iff_eq]
  constructor
  · rintro ⟨h1, h2⟩
    exact le_antisymm h2 h1
  · rintro rfl
    exact ⟨le_refl _, le_refl _⟩

theorem inClass_hex (c : Char) : inClass [('a', 'f'), ('0', '9')] c = isLowerHex c := by
  simp only [inClass, List.any_cons, List.any_nil, Bool.or_false, isLowerHex]
  exact Bool.or_comm _ _

theorem inClass_hex' (c : Char) : inClass [('0', '9'), ('a', 'f')] c = isLowerHex c := by
  simp only [inClass, List.any_cons, List.any_nil, Bool.or_false, isLowerHex]

theorem inClass_variant (c : Char) :
    inClass [('8', '8'), ('9', '9'), ('a', 'a'), ('b', 'b')] c
      = (c == '8' || c == '9' || c == 'a' || c == 'b') := by
  have h8 := inClass_single '8' c
  have h9 := inClass_single '9' c
  have ha := inClass_single 'a' c
  have hb := inClass_single 'b' c
  simp only [inClass, List.any_cons, List.any_nil, Bool.or_false] at h8 h9 ha hb ⊢
  rw [h8, h9, ha, hb]
  simp only [Bool.or_assoc]

theorem classesOf_uuidRegexp :
    classesOf uuidRegexp =
      List.replicate 8 [('a', 'f'), ('0', '9')] ++ [('-', '-')] ::
      List.replicate 4 [('a', 'f'), ('0', '9')] ++ [('-', '-')] :: [('4', '4')] ::
      List.replicate 3 [('0', '9'), ('a', 'f')] ++ [('-', '-')] ::
      [('8', '8'), ('9', '9'), ('a', 'a'), ('b', 'b')] ::
      List.replicate 3 [('0', '9'), ('a', 'f')] ++ [('-', '-')] ::
      List.replicate 12 [('a', 'f'), ('0', '9')] := by
  rfl

theorem class_at_position (i : Nat) (hi : i < 36) (c : Char) :
    inClass ((classesOf uuidRegexp).getD i []) c = positionOK i c := by
  rw [classesOf_uuidRegexp]
  interval_cases i <;>
    simp [List.replicate, positionOK, inClass_single, inClass_hex, inClass_hex',
      inClass_variant]

theorem IsValidUUID_iff (s : String) : IsValidUUID s = true ↔ IsUUIDv4Text s := by
  unfold IsValidUUID IsUUIDv4Text
  rw [matchItems_eq_matchClasses, matchClasses_iff]
  have hlen : (classesOf uuidRegexp).length = 36 := by decide
  rw [hlen]
  constructor
  · rintro ⟨hl, h⟩
    refine ⟨hl, fun i c hc => ?_⟩
    have hi : i < 36 := by
      have := (List.getElem?_eq_some_iff.mp hc).1
      omega
    rw [← class_at_position i hi c]
    exact h i c hc
  · rintro ⟨hl, h⟩
    refine ⟨hl, fun i c hc => ?_⟩
    have hl' : s.data.length = 36 := hl
    have hi : i < 36 := by
      have := (List.getElem?_eq_some_iff.mp hc).1
      omega
    rw [class_at_position i hi c]
    exact h i c hc

theorem positionOK_upper (i : Nat) (c : Char) (hc : c ∈ ['A', 'B', 'C', 'D', 'E', 'F']) :
    positionOK i c = false := by
  simp only [List.mem_cons, List.mem_singleton, List.not_mem_nil, or_false] at hc
  unfold positionOK
  rcases hc with rfl | rfl | rfl | rfl | rfl | rfl <;> split_ifs <;> decide

/-- C15. UUID validator pattern: for every string `s`, `IsValidUUID(s)`, and
likewise `IsValidUUIDv4(s)`, is true if and only if `s` has exactly 36
characters, with `-` at positions 8, 13, 18 and 23, `4` at position 14, one of
`8`, `9`, `a`, `b` at position 19, and a lowercase hexadecimal digit everywhere
else. A string with an uppercase hexadecimal digit, a valid string with
characters added in front or behind (a trailing newline for one), and the text
of the nil UUID are rejected. -/
theorem uuid_validator_pattern (s : String) :
    (IsValidUUID s = true ↔ IsUUIDv4Text s) ∧
    (IsValidUUIDv4 s = true ↔ IsUUIDv4Text s) ∧
    ((∃ c ∈ s.data, c ∈ ['A', 'B', 'C', 'D', 'E', 'F']) → IsValidUUID s = false) ∧
    (∀ t : String, t ≠ "" → IsValidUUID s = true →
      IsValidUUID (s ++ t) = false ∧ IsValidUUID (t ++ s) = false) ∧
    (IsValidUUID s = true → IsValidUUID (s ++ "\n") = false) ∧
    IsValidUUID UUID.Nil.String = false := by
  have hnot : ∀ u : String, u.length ≠ 36 → IsValidUUID u = false := by
    intro u hu
    by_contra h
    have h' : IsValidUUID u = true := by simpa using h
    exact hu ((IsValidUUID_iff u).mp h').1
  have hext : ∀ t : String, t ≠ "" → IsValidUUID s = true →
      IsValidUUID (s ++ t) = false ∧ IsValidUUID (t ++ s) = false := by
    intro t ht hs
    have hl := ((IsValidUUID_iff s).mp hs).1
    have htl : 0 < t.length := by
      rw [String.length]
      apply List.length_pos.mpr
      intro hd
      apply ht
      cases t
      simp only at hd
      rw [hd]
    constructor
    · apply hnot
      rw [String.length_append]
      omega
    · apply hnot
      rw [String.length_append]
      omega
  refine ⟨IsValidUUID_iff s, IsValidUUID_iff s, ?_, hext, ?_, by decide⟩
  · rintro ⟨c, hcs, hcu⟩
    by_contra h
    have h' : IsValidUUID s = true := by simpa using h
    obtain ⟨_, hp⟩ := (IsValidUUID_iff s).mp h'
    obtain ⟨i, hi, hget⟩ := List.getElem_of_mem hcs
    have := hp i c (by rw [List.getElem?_eq_getElem hi, hget])
    rw [positionOK_upper i c hcu] at this
    exact absurd this (by simp)
  · intro hs
    exact (hext "\n" (by decide) hs).1

/-! ## Tokens whose payload is not an integer -/

/-- The loop of `ParseUint` on digits: the number read, or a range error as
soon as the number no longer fits in 64 bits. -/
theorem parseUintLoop_digits (s : List Nat) :
    ∀ m, IsDigits s → m < 2 ^ 64 →
      parseUintLoop s m =
        some (if readDigits m s < 2 ^ 64 then (readDigits m s, true) else (2 ^ 64 - 1, false)) := by
  induction s with
  | nil =>
    intro m _ hm
    simp only [parseUintLoop, readDigits, List.foldl_nil, hm, if_true]
  | cons c s ih =>
    intro m hd hm
    have hc := hd c (List.mem_cons_self c s)
    have hs : IsDigits s := fun x hx => hd x (List.mem_cons_of_mem c hx)
    have hge := le_readDigits s (m * 10 + (c - 48))
    rw [readDigits_cons]
    by_cases h1 : m ≥ (2 ^ 64 - 1) / 10 + 1
    · have hbig : ¬ readDigits (m * 10 + (c - 48)) s < 2 ^ 64 := by
        norm_num at h1 ⊢
        omega
      simp only [parseUintLoop, hc, and_self, if_true, h1, hbig, if_false]
    · by_cases h2 : m * 10 + (c - 48) > 2 ^ 64 - 1
      · have hbig : ¬ readDigits (m * 10 + (c - 48)) s < 2 ^ 64 := by
          norm_num at h2 ⊢
          omega
        simp only [parseUintLoop, hc, and_self, if_true, h1, h2, hbig, if_false]
      · simp only [parseUintLoop, hc, and_self, if_true, h1, h2, if_false]
        exact ih _ hs (by norm_num at h2 ⊢; omega)

/-- The loop of `ParseUint` on digits followed by another byte: a syntax error,
unless the digits alone already overflow 64 bits. -/
theorem parseUintLoop_nondigit (d : List Nat) (x : Nat) (rest : List Nat)
    (hx : ¬ (48 ≤ x ∧ x ≤ 57)) :
    ∀ m, IsDigits d → m < 2 ^ 64 →
      parseUintLoop (d ++ x :: rest) m =
        if readDigits m d < 2 ^ 64 then none else some (2 ^ 64 - 1, false) := by
  induction d with
  | nil =>
    intro m _ hm
    simp only [List.nil_append, parseUintLoop, hx, if_false, readDigits, List.foldl_nil, hm,
      if_true]
  | cons c s ih =>
    intro m hd hm
    have hc := hd c (List.mem_cons_self c s)
    have hs : IsDigits s := fun y hy => hd y (List.mem_cons_of_mem c hy)
    have hge := le_readDigits s (m * 10 + (c - 48))
    rw [readDigits_cons, List.cons_append]
    by_cases h1 : m ≥ (2 ^ 64 - 1) / 10 + 1
    · have hbig : ¬ readDigits (m * 10 + (c - 48)) s < 2 ^ 64 := by
        norm_num at h1 ⊢
        omega
      simp only [parseUintLoop, hc, and_self, if_true, h1, hbig, if_false]
    · by_cases h2 : m * 10 + (c - 48) > 2 ^ 64 - 1
      · have hbig : ¬ readDigits (m * 10 + (c - 48)) s < 2 ^ 64 := by
          norm_num at h2 ⊢
          omega
        simp only [parseUintLoop, hc, and_self, if_true, h1, h2, hbig, if_false]
      · simp only [parseUintLoop, hc, and_self, if_true, h1, h2, if_false]
        exact ih _ hs (by norm_num at h2 ⊢; omega)

theorem atoiFast_nondigit (d : List Nat) (x : Nat) (rest : List Nat)
    (hx : ¬ (48 ≤ x ∧ x ≤ 57)) :
    ∀ m : Int, IsDigits d → atoiFast (d ++ x :: rest) m = none := by
  induction d with
  | nil =>
    intro m _
    simp only [List.nil_append, atoiFast, hx, if_false]
  | cons c s ih =>
    intro m hd
    have hc := hd c (List.mem_cons_self c s)
    have hs : IsDigits s := fun y hy => hd y (List.mem_cons_of_mem c hy)
    simp only [List.cons_append, atoiFast, hc, and_self, if_true]
    exact ih _ hs

theorem readDigits_lt_pow (s : List Nat) :
    ∀ m, IsDigits s → readDigits m s < (m + 1) * 10 ^ s.length := by
  induction s with
  | nil =>
    intro m _
    simp [readDigits]
  | cons c s ih =>
    intro m hd
    have hc := hd c (List.mem_cons_self c s)
    have hs : IsDigits s := fun y hy => hd y (List.mem_cons_of_mem c hy)
    rw [readDigits_cons, List.length_cons, pow_succ]
    have h1 := ih (m * 10 + (c - 48)) hs
    have h2 : (m * 10 + (c - 48) + 1) * 10 ^ s.length ≤ ((m + 1) * 10) * 10 ^ s.length :=
      Nat.mul_le_mul_right _ (by omega)
    calc readDigits (m * 10 + (c - 48)) s
        < (m * 10 + (c - 48) + 1) * 10 ^ s.length := h1
      _ ≤ ((m + 1) * 10) * 10 ^ s.length := h2
      _ = (m + 1) * (10 ^ s.length * 10) := by ring

/-- A text is made of digits, or it splits into its leading digits and a first
byte that is not a digit. -/
theorem digits_split (b : List Nat) :
    IsDigits b ∨ ∃ d x rest, b = d ++ x :: rest ∧ IsDigits d ∧ ¬ (48 ≤ x ∧ x ≤ 57) ∧
      d = b.takeWhile isDigitByte := by
  induction b with
  | nil => exact Or.inl (fun _ h => absurd h (List.not_mem_nil _))
  | cons c b ih =>
    by_cases hc : 48 ≤ c ∧ c ≤ 57
    · have hp : isDigitByte c = true := by simpa [isDigitByte] using hc
      rcases ih with h | ⟨d, x, rest, h1, h2, h3, h4⟩
      · left
        intro y hy
        rcases List.mem_cons.mp hy with rfl | hy
        · exact hc
        · exact h y hy
      · right
        refine ⟨c :: d, x, rest, by rw [h1]; rfl, ?_, h3, ?_⟩
        · intro y hy
          rcases List.mem_cons.mp hy with rfl | hy
          · exact hc
          · exact h2 y hy
        · rw [List.takeWhile_cons_of_pos hp, h4]
    · right
      have hp : ¬ isDigitByte c = true := by simpa [isDigitByte] using hc
      exact ⟨[], c, b, rfl, fun _ h => absurd h (List.not_mem_nil _), hc,
        by rw [List.takeWhile_cons_of_neg hp]⟩

/-- The value of `Atoi` on a text that has a byte after its optional sign, in
terms of that part of the text. -/
theorem Atoi_cons (c : Nat) (rest : List Nat) (d : Nat) (ds : List Nat)
    (hb : stripSign (c :: rest) = d :: ds) :
    Atoi (c :: rest) =
      if 0 < (c :: rest).length ∧ (c :: rest).length < 19 then
        match atoiFast (d :: ds) 0 with
        | none => ⟨0, false⟩
        | some n => ⟨if c = 45 then -n else n, true⟩
      else
        match parseUintLoop (d :: ds) 0 with
        | none => ⟨0, false⟩
        | some (un, okU) =>
          if ¬ c = 45 ∧ un ≥ 2 ^ 63 then ⟨2 ^ 63 - 1, false⟩
          else if c = 45 ∧ un > 2 ^ 63 then ⟨-(2 ^ 63), false⟩
          else ⟨if c = 45 then -(un : Int) else (un : Int), okU⟩ := by
  unfold stripSign at hb
  simp only at hb
  unfold Atoi ParseInt
  by_cases hs : c = 43 ∨ c = 45
  · have hs' : c = 45 ∨ c = 43 := hs.symm
    rw [if_pos hs] at hb
    simp only [hs, hs', if_true, hb]
  · have hs' : ¬ (c = 45 ∨ c = 43) := fun h => hs h.symm
    rw [if_neg hs] at hb
    simp only [hs, hs', if_false, hb]

/-- `Atoi` on a text that is empty or a lone sign: a syntax error, value 0. -/
theorem Atoi_no_digits (s : List Nat) (hb : stripSign s = []) : Atoi s = ⟨0, false⟩ := by
  cases s with
  | nil => rfl
  | cons c rest =>
    unfold stripSign at hb
    simp only at hb
    by_cases hs : c = 43 ∨ c = 45
    · have hs' : c = 45 ∨ c = 43 := hs.symm
      rw [if_pos hs] at hb
      subst hb
      unfold Atoi ParseInt
      simp only [hs, hs', if_true]
      split <;> rfl
    · rw [if_neg hs] at hb
      exact absurd hb (List.cons_ne_nil _ _)

/-- `Atoi` on a text that is not a numeral: a syntax error, value 0, provided
that the leading digits do not overflow 64 bits before the error is seen. -/
theorem Atoi_not_numeral (s : List Nat) (hn : ¬ IsNumeral s)
    (hlead : readDigits 0 (leadingDigits s) < 2 ^ 64) : (Atoi s).value = 0 := by
  by_cases hb : stripSign s = []
  · rw [Atoi_no_digits s hb]
  · have hnd : ¬ IsDigits (stripSign s) := fun h => hn ⟨hb, h⟩
    rcases digits_split (stripSign s) with h | ⟨d, x, rest, h1, h2, h3, h4⟩
    · exact absurd h hnd
    · have hld : leadingDigits s = d := by
        unfold leadingDigits
        exact h4.symm
      rw [hld] at hlead
      cases s with
      | nil => exact absurd rfl hb
      | cons c tl =>
        obtain ⟨b0, bs, hbs⟩ := List.exists_cons_of_ne_nil hb
        rw [Atoi_cons c tl b0 bs hbs, ← hbs, h1]
        rw [atoiFast_nondigit d x rest h3 0 h2,
          parseUintLoop_nondigit d x rest h3 0 h2 (by norm_num), if_pos hlead]
        split <;> rfl

/-- `Atoi` on a numeral whose value does not fit in an `int`: the nearest bound
of the type, with a range error. -/
theorem Atoi_out_of_range (s : List Nat) (hn : IsNumeral s) :
    (numeralValue s > maxInt → Atoi s = ⟨maxInt, false⟩) ∧
    (numeralValue s < minInt → Atoi s = ⟨minInt, false⟩) := by
  obtain ⟨hb, hd⟩ := hn
  cases s with
  | nil => exact absurd rfl hb
  | cons c tl =>
    obtain ⟨b0, bs, hbs⟩ := List.exists_cons_of_ne_nil hb
    have hlen : (stripSign (c :: tl)).length ≤ (c :: tl).length := by
      unfold stripSign
      simp only
      split <;> simp
    have hpow := readDigits_lt_pow (stripSign (c :: tl)) 0 hd
    have hP := parseUintLoop_digits (stripSign (c :: tl)) 0 hd (by norm_num)
    have hslow : ∀ v : Nat, readDigits 0 (stripSign (c :: tl)) = v → 2 ^ 63 ≤ v →
        ¬ (0 < (c :: tl).length ∧ (c :: tl).length < 19) := by
      intro v hv hge
      rintro ⟨_, hlt⟩
      have h18 : (stripSign (c :: tl)).length ≤ 18 := by omega
      have : 10 ^ (stripSign (c :: tl)).length ≤ 10 ^ 18 :=
        Nat.pow_le_pow_right (by norm_num) h18
      rw [hv] at hpow
      norm_num at hpow this hge
      omega
    have hbig : (2 : Nat) ^ 63 ≤ 2 ^ 64 - 1 := by norm_num
    have hbig' : (2 : Nat) ^ 63 < 2 ^ 64 - 1 := by norm_num
    have hmax : (((2 : Nat) ^ 64 - 1 : Nat) : Int) ≥ 0 := Int.natCast_nonneg _
    unfold numeralValue maxInt minInt
    simp only [List.head?_cons, Option.some.injEq]
    generalize hv : readDigits 0 (stripSign (c :: tl)) = v at hpow hP ⊢
    rw [hbs] at hP
    constructor
    · intro hgt
      by_cases hc : c = 45
      · rw [if_pos hc] at hgt
        omega
      · rw [if_neg hc] at hgt
        have hge : 2 ^ 63 ≤ v := by omega
        rw [Atoi_cons c tl b0 bs hbs, if_neg (hslow v hv hge), hP]
        by_cases h64 : v < 2 ^ 64
        · simp only [h64, if_true, hc, not_false_eq_true, true_and, ge_iff_le, hge]
        · simp only [h64, if_false, hc, not_false_eq_true, true_and, ge_iff_le, hbig, if_true]
    · intro hlt
      by_cases hc : c = 45
      · rw [if_pos hc] at hlt
        have hge : 2 ^ 63 < v := by omega
        rw [Atoi_cons c tl b0 bs hbs, if_neg (hslow v hv (by omega)), hP]
        by_cases h64 : v < 2 ^ 64
        · simp only [h64, if_true, hc, not_true_eq_false, false_and, if_false, true_and,
            gt_iff_lt, hge]
        · simp only [h64, if_false, hc, not_true_eq_false, false_and, true_and, gt_iff_lt,
            hbig', if_true]
      · rw [if_neg hc] at hlt
        omega

theorem leadingDigits_isDigits (s : List Nat) : IsDigits (leadingDigits s) := by
  intro c hc
  unfold leadingDigits at hc
  have := List.mem_takeWhile_imp hc
  simpa [isDigitByte] using this

/-- C18, as stated, fails: the token that is the base64 text of
`9223372036854775808`, a numeral too large for an `int`, decodes to the offset
`2^63 - 1`, not 0; and so does the token of `99999999999999999999x`, which is not
a numeral, because its digits overflow before the `x` is read. -/
theorem non_integer_payload_counterexample :
    DecodeString "OTIyMzM3MjAzNjg1NDc3NTgwOA==" = .ok (bytesOfString "9223372036854775808") ∧
    numeralValue (bytesOfString "9223372036854775808") > maxInt ∧
    DecodeToken "OTIyMzM3MjAzNjg1NDc3NTgwOA==" = .ok 9223372036854775807 ∧
    DecodeToken "OTIyMzM3MjAzNjg1NDc3NTgwOA==" ≠ .ok 0 ∧
    DecodeString "OTk5OTk5OTk5OTk5OTk5OTk5OTl4" = .ok (bytesOfString "99999999999999999999x") ∧
    ¬ IsDigits (stripSign (bytesOfString "99999999999999999999x")) ∧
    DecodeToken "OTk5OTk5OTk5OTk5OTk5OTk5OTl4" = .ok 9223372036854775807 := by
  unfold IsDigits
  decide

/-- C18, amended. For a token that base64 decodes to a text that is not a
decimal numeral (an optional sign followed by one digit or more), such as `abc`
or the empty text, `DecodeToken` returns the offset 0 with a nil error, provided
that the digits that follow the optional sign, up to the first other byte, make
a number below `2^64`, which is so whenever there are at most 19 of them. For a
text that is a decimal numeral too large for an `int`, `DecodeToken` returns the
largest `int`, and for one below the range the smallest, with a nil error. -/
theorem non_integer_payload (token : String) (out : List Nat)
    (hdec : DecodeString token = .ok out) :
    (¬ IsNumeral out → readDigits 0 (leadingDigits out) < 2 ^ 64 →
      DecodeToken token = .ok 0) ∧
    (¬ IsNumeral out → (leadingDigits out).length ≤ 19 → DecodeToken token = .ok 0) ∧
    (IsNumeral out → numeralValue out > maxInt → DecodeToken token = .ok maxInt) ∧
    (IsNumeral out → numeralValue out < minInt → DecodeToken token = .ok minInt) := by
  have hD : DecodeToken token = .ok (Atoi out).value := by
    simp only [DecodeToken, hdec]
  have h1 : ¬ IsNumeral out → readDigits 0 (leadingDigits out) < 2 ^ 64 →
      DecodeToken token = .ok 0 := by
    intro hn hlead
    rw [hD, Atoi_not_numeral out hn hlead]
  refine ⟨h1, ?_, ?_, ?_⟩
  · intro hn hlen
    apply h1 hn
    have hp := readDigits_lt_pow (leadingDigits out) 0 (leadingDigits_isDigits out)
    have : 10 ^ (leadingDigits out).length ≤ 10 ^ 19 := Nat.pow_le_pow_right (by norm_num) hlen
    norm_num at hp this ⊢
    omega
  · intro hn hgt
    rw [hD, (Atoi_out_of_range out hn).1 hgt]
  · intro hn hlt
    rw [hD, (Atoi_out_of_range out hn).2 hlt]

theorem non_integer_payload_witness :
    DecodeString "YWJj" = .ok [97, 98, 99] ∧
    ((¬ IsNumeral [97, 98, 99] → readDigits 0 (leadingDigits [97, 98, 99]) < 2 ^ 64 →
      DecodeToken "YWJj" = .ok 0) ∧
    (¬ IsNumeral [97, 98, 99] → (leadingDigits [97, 98, 99]).length ≤ 19 →
      DecodeToken "YWJj" = .ok 0) ∧
    (IsNumeral [97, 98, 99] → numeralValue [97, 98, 99] > maxInt →
      DecodeToken "YWJj" = .ok maxInt) ∧
    (IsNumeral [97, 98, 99] → numeralValue [97, 98, 99] < minInt →
      DecodeToken "YWJj" = .ok minInt)) :=
  ⟨by decide, non_integer_payload "YWJj" [97, 98, 99] (by decide)⟩

/-! ## Traversals -/

theorem ceil_div_one (x l : Nat) (hx : 1 ≤ x) (hxl : x ≤ l) : (x + l - 1) / l = 1 := by
  apply Nat.div_eq_of_lt_le
  · omega
  · omega

theorem ceil_div_step (x l : Nat) (hl : 1 ≤ l) (hxl : l < x) :
    (x + l - 1) / l = (x - l + l - 1) / l + 1 := by
  have e : x + l - 1 = (x - l + l - 1) + l := by omega
  rw [e, Nat.add_div_right _ (by omega)]

/-- The forward loop from an offset below the number of folders: it ends after
exactly `ceil((S - s) / l)` calls and its pages, put end to end, are the folders
from that offset on. -/
theorem pagesFrom_spec (sample : List Folder) (orgID : UUID) (l : Nat)
    (hlen : sample.length ≤ maxSliceLen)
    (hvalid : ∀ f ∈ sample, f.OrgId = orgID → IsValidUUIDv4 f.Id.String = true)
    (hl : 1 ≤ l ∧ l ≤ 999) :
    ∀ (fuel s : Nat) (tok : String),
      (tok = "" ∧ s = 0 ∨ tok ≠ "" ∧ DecodeToken tok = .ok (s : Int)) →
      s < (filtered sample orgID).length →
      (fuel < ((filtered sample orgID).length - s + l - 1) / l →
        pagesFrom sample orgID (l : Int) fuel tok = none) ∧
      (((filtered sample orgID).length - s + l - 1) / l ≤ fuel →
        ∃ pages, pagesFrom sample orgID (l : Int) fuel tok = some (.ok pages) ∧
          pages.length = ((filtered sample orgID).length - s + l - 1) / l ∧
          pages.flatten = (filtered sample orgID).drop s) := by
  have hS := filtered_length_le sample orgID
  have hmax : maxSliceLen = 2 ^ 45 := rfl
  have hL : (1 : Int) ≤ (l : Int) ∧ (l : Int) ≤ 999 := by omega
  intro fuel
  induction fuel with
  | zero =>
    intro s tok _ hs
    constructor
    · intro _
      rfl
    · intro hk
      by_cases hc : (filtered sample orgID).length - s ≤ l
      · rw [ceil_div_one _ l (by omega) hc] at hk
        omega
      · rw [ceil_div_step _ l hl.1 (by omega)] at hk
        exact absurd hk (Nat.not_succ_le_zero _)
  | succ fuel ih =>
    intro s tok hstart hs
    have hfetch := fetch_ok_nat sample orgID (l : Int) tok s hlen hvalid hL hstart (by omega)
    rw [Int.toNat_ofNat] at hfetch
    by_cases hc : (filtered sample orgID).length - s ≤ l
    · -- the last page
      have hk := ceil_div_one ((filtered sample orgID).length - s) l (by omega) hc
      have hmin : min (s + l) (filtered sample orgID).length = (filtered sample orgID).length :=
        min_eq_right (by omega)
      have hnext : ¬ (min ((s : Int) + (l : Int)) ((filtered sample orgID).length : Int)
          < ((filtered sample orgID).length : Int)) := by
        rw [min_eq_right (by omega)]
        omega
      rw [hmin, if_neg hnext] at hfetch
      have hpages : pagesFrom sample orgID (l : Int) (fuel + 1) tok =
          some (.ok [window (filtered sample orgID) s (filtered sample orgID).length]) := by
        simp only [pagesFrom, hfetch, if_true]
      rw [hk]
      constructor
      · intro h
        omega
      · intro _
        refine ⟨_, hpages, rfl, ?_⟩
        simp only [List.flatten, List.append_nil, window]
        rw [List.take_of_length_le]
        rw [List.length_drop]
    · -- a page that is followed by another one
      have hlt : s + l < (filtered sample orgID).length := by omega
      have hk := ceil_div_step ((filtered sample orgID).length - s) l hl.1 (by omega)
      have hsub : (filtered sample orgID).length - s - l = (filtered sample orgID).length - (s + l) := by
        omega
      rw [hsub] at hk
      have hmin : min (s + l) (filtered sample orgID).length = s + l := min_eq_left (by omega)
      have hminI : min ((s : Int) + (l : Int)) ((filtered sample orgID).length : Int)
          = ((s + l : Nat) : Int) := by
        rw [min_eq_left (by omega)]
        push_cast
        rfl
      rw [hmin, hminI, if_pos (by omega)] at hfetch
      have hne : EncodeToken ((s + l : Nat) : Int) ≠ "" := EncodeToken_ne_empty _
      have hdec : DecodeToken (EncodeToken ((s + l : Nat) : Int)) = .ok ((s + l : Nat) : Int) := by
        apply DecodeToken_EncodeToken_int
        · unfold minInt
          omega
        · unfold maxInt
          omega
      obtain ⟨ih1, ih2⟩ := ih (s + l) (EncodeToken ((s + l : Nat) : Int)) (Or.inr ⟨hne, hdec⟩) hlt
      rw [hk]
      constructor
      · intro h
        have h' := ih1 (by omega)
        simp only [pagesFrom, hfetch, hne, if_false, h']
      · intro h
        obtain ⟨pages, hp, hpl, hpf⟩ := ih2 (by omega)
        refine ⟨window (filtered sample orgID) s (s + l) :: pages, ?_, ?_, ?_⟩
        · simp only [pagesFrom, hfetch, hne, if_false, hp]
        · rw [List.length_cons, hpl]
        · rw [List.flatten, hpf]
          simp only [window, Nat.add_sub_cancel_left]
          rw [← List.drop_drop]
          exact List.take_append_drop l _

/-- C19. Forward traversal is complete and free of duplicates: when the
organisation has `S ≥ 1` folders, all with valid identifiers, and the page limit
`L` is in 1..999, the loop that starts from the empty token and calls
`FetchAllFoldersByOrgIDsInPag` with the next token of the call before, until the
next token is empty, ends after exactly `ceil(S / L)` calls (it has not ended
with fewer), every call succeeds, and the pages put end to end in order are the
filtered list. -/
theorem forward_traversal (sample : List Folder) (orgID : UUID) (PageLimit : Int) (fuel : Nat)
    (hlen : sample.length ≤ maxSliceLen)
    (hvalid : ∀ f ∈ sample, f.OrgId = orgID → IsValidUUIDv4 f.Id.String = true)
    (hL : 1 ≤ PageLimit ∧ PageLimit ≤ 999)
    (hS : 1 ≤ (filtered sample orgID).length) :
    (fuel < ((filtered sample orgID).length + PageLimit.toNat - 1) / PageLimit.toNat →
      pagesFrom sample orgID PageLimit fuel "" = none) ∧
    (((filtered sample orgID).length + PageLimit.toNat - 1) / PageLimit.toNat ≤ fuel →
      ∃ pages, pagesFrom sample orgID PageLimit fuel "" = some (.ok pages) ∧
        pages.length = ((filtered sample orgID).length + PageLimit.toNat - 1) / PageLimit.toNat ∧
        pages.flatten = filtered sample orgID) := by
  have hcast : PageLimit = ((PageLimit.toNat : Nat) : Int) := by omega
  have h := pagesFrom_spec sample orgID PageLimit.toNat hlen hvalid (by omega) fuel 0 ""
    (Or.inl ⟨rfl, rfl⟩) (by omega)
  rw [← hcast] at h
  simpa using h

theorem forward_traversal_witness :
    (sampleA 25).length ≤ maxSliceLen ∧
    (∀ f ∈ sampleA 25, f.OrgId = orgA → IsValidUUIDv4 f.Id.String = true) ∧
    ((1 : Int) ≤ 10 ∧ (10 : Int) ≤ 999) ∧
    1 ≤ (filtered (sampleA 25) orgA).length ∧
    ((3 < ((filtered (sampleA 25) orgA).length + (10 : Int).toNat - 1) / (10 : Int).toNat →
      pagesFrom (sampleA 25) orgA 10 3 "" = none) ∧
    (((filtered (sampleA 25) orgA).length + (10 : Int).toNat - 1) / (10 : Int).toNat ≤ 3 →
      ∃ pages, pagesFrom (sampleA 25) orgA 10 3 "" = some (.ok pages) ∧
        pages.length
          = ((filtered (sampleA 25) orgA).length + (10 : Int).toNat - 1) / (10 : Int).toNat ∧
        pages.flatten = filtered (sampleA 25) orgA)) :=
  ⟨by decide, by decide, by decide, by decide,
    forward_traversal (sampleA 25) orgA 10 3 (by decide) (by decide) (by decide) (by decide)⟩

/-- C20. With an unchanged page limit the previous token undoes the next token:
when a call with a page limit `L` in 1..999 at the offset `start` returns a page
and a next token `t` that is not empty, the call with the same organisation, the
same `L` and the token `t` returns a previous token that decodes to `start`, and
the call with that previous token returns the first page again. -/
theorem prev_undoes_next (sample : List Folder) (orgID : UUID) (PageLimit : Int)
    (Token : String) (start : Int) (page : List Folder) (t prev0 : String)
    (hlen : sample.length ≤ maxSliceLen)
    (hL : 1 ≤ PageLimit ∧ PageLimit ≤ 999)
    (hstart : Token = "" ∧ start = 0 ∨ Token ≠ "" ∧ DecodeToken Token = .ok start)
    (hok : FetchAllFoldersByOrgIDsInPag sample orgID PageLimit Token = .ok (page, t, prev0))
    (ht : t ≠ "") :
    ∃ page1 next1 prev1,
      FetchAllFoldersByOrgIDsInPag sample orgID PageLimit t = .ok (page1, next1, prev1) ∧
      DecodeToken prev1 = .ok start ∧
      ∃ next2 prev2,
        FetchAllFoldersByOrgIDsInPag sample orgID PageLimit prev1 = .ok (page, next2, prev2) := by
  have hS := filtered_length_le sample orgID
  have hmax : maxSliceLen = 2 ^ 45 := rfl
  obtain ⟨hvalid, h0, hle, hnowrap, hpage, hnext, _⟩ :=
    fetch_ok_inv sample orgID PageLimit Token start page t prev0 hL hstart hok
  have hlt : start + PageLimit < ((filtered sample orgID).length : Int) := by
    by_contra hge
    apply ht
    rw [hnext, if_neg]
    rw [min_eq_right (by omega)]
    omega
  have hmin : min (start + PageLimit) ((filtered sample orgID).length : Int)
      = start + PageLimit := min_eq_left (le_of_lt hlt)
  rw [hmin, if_pos hlt] at hnext
  have hdec1 : DecodeToken t = .ok (start + PageLimit) := by
    rw [hnext]
    apply DecodeToken_EncodeToken_int
    · unfold minInt
      omega
    · unfold maxInt
      omega
  have h1 := fetch_ok sample orgID PageLimit t (start + PageLimit) hvalid hL
    (Or.inr ⟨ht, hdec1⟩) (by omega) (by omega) (by omega)
  have hprev : (if start + PageLimit > 0
      then EncodeToken (max (start + PageLimit - PageLimit) 0) else "") = EncodeToken start := by
    rw [if_pos (by omega)]
    congr 1
    rw [max_eq_left (by omega)]
    omega
  rw [hprev] at h1
  have hdec2 : DecodeToken (EncodeToken start) = .ok start := by
    apply DecodeToken_EncodeToken_int
    · unfold minInt
      omega
    · unfold maxInt
      omega
  have h2 := fetch_ok sample orgID PageLimit (EncodeToken start) start hvalid hL
    (Or.inr ⟨EncodeToken_ne_empty start, hdec2⟩) h0 hle hnowrap
  rw [← hpage] at h2
  exact ⟨_, _, _, h1, hdec2, _, _, h2⟩

theorem prev_undoes_next_witness :
    (sampleA 25).length ≤ maxSliceLen ∧
    ((1 : Int) ≤ 10 ∧ (10 : Int) ≤ 999) ∧
    FetchAllFoldersByOrgIDsInPag (sampleA 25) orgA 10 "" =
      .ok ((sampleA 25).take 10, "MTA=", "") ∧
    "MTA=" ≠ "" ∧
    ∃ page1 next1 prev1,
      FetchAllFoldersByOrgIDsInPag (sampleA 25) orgA 10 "MTA=" = .ok (page1, next1, prev1) ∧
      DecodeToken prev1 = .ok 0 ∧
      ∃ next2 prev2,
        FetchAllFoldersByOrgIDsInPag (sampleA 25) orgA 10 prev1 =
          .ok ((sampleA 25).take 10, next2, prev2) :=
  ⟨by decide, by decide, by decide, by decide,
    prev_undoes_next (sampleA 25) orgA 10 "" 0 ((sampleA 25).take 10) "MTA=" ""
      (by decide) (by decide) (Or.inl ⟨rfl, rfl⟩) (by decide) (by decide)⟩

end Folders
